import Mathlib

/-!
Shallow embedding of `letta/services/workflow/coordinator.py`
(`TaskStatus`, `Task`, `WorkflowCoordinator`) and theorems checking the
scheduler specification against it.

Modelling conventions:
* Python `dict`s become ordered association lists (`List (String × α)`)
  with insertion-order-preserving overwrite, matching `dict` semantics.
* `datetime.now()` becomes a tick counter threaded through the state
  (`clock`); each call returns the current tick and bumps the counter.
  The dataclass field default `created_at: datetime = datetime.now()` is
  evaluated once, when the `Task` class is defined, so it is a module
  level constant here (`taskClassCreatedAt`), not a clock read.
* `asyncio.Queue` holds the submitted task records; since the scheduler
  enqueues exactly the records stored in `self.tasks`, the queue is
  modelled as the list of their ids (FIFO: put appends, get takes the
  head).
* The executor (`agent.execute_task`) is an external collaborator; it is
  modelled as a function from the task description to an outcome, which
  is either a result or a raised exception message.  `agent.update_state`
  persists agent-side state to files and has no effect on any scheduler
  state, so it is not represented.
* `run_workflow` is an unbounded loop; it is embedded with explicit fuel
  (`none` = the fuel ran out before the loop's `break` was reached).
* A ghost field `log` records the ids for which `execute_task` was
  invoked; it is write-only and does not influence the behaviour.
-/

namespace Letta

/-- Abstract timestamp standing for a Python `datetime` value. -/
structure DateTime where
  tick : Nat
deriving DecidableEq, Repr

/-- Embedding of `datetime.isoformat()`: an injective serialization of the
timestamp to a string. -/
def DateTime.isoformat (d : DateTime) : String :=
  toString d.tick

/-- Embedding of the `TaskStatus` enumeration. -/
inductive TaskStatus where
  | pending
  | in_progress
  | completed
  | failed
  | blocked
deriving DecidableEq, Repr

/-- The `.value` string of each `TaskStatus` member. -/
def TaskStatus.value : TaskStatus → String
  | .pending => "pending"
  | .in_progress => "in_progress"
  | .completed => "completed"
  | .failed => "failed"
  | .blocked => "blocked"

/-- `datetime.now()` as evaluated once at `Task` class definition time:
the dataclass default `created_at: datetime = datetime.now()` is a single
shared value, fixed when `coordinator.py` is imported. -/
def taskClassCreatedAt : DateTime :=
  ⟨0⟩

/-- Embedding of the `Task` dataclass.  Field defaults mirror the
dataclass defaults; in particular `created_at` defaults to the value
computed once at class definition time. -/
structure Task where
  id : String
  role : String
  description : String
  dependencies : List String
  status : TaskStatus := TaskStatus.pending
  result : Option String := none
  error : Option String := none
  created_at : DateTime := taskClassCreatedAt
  started_at : Option DateTime := none
  completed_at : Option DateTime := none
deriving DecidableEq, Repr

/-- `task.status = TaskStatus.BLOCKED` -/
def markBlocked (u : Task) : Task :=
  { u with status := TaskStatus.blocked }

/-- `self.tasks[task_id].status = TaskStatus.PENDING` -/
def markPending (u : Task) : Task :=
  { u with status := TaskStatus.pending }

/-- `task.status = TaskStatus.IN_PROGRESS; task.started_at = datetime.now()` -/
def markStarted (c : Nat) (u : Task) : Task :=
  { u with status := TaskStatus.in_progress, started_at := some ⟨c⟩ }

/-- `task.result = result; task.status = COMPLETED; task.completed_at = now()` -/
def markDone (r : String) (c : Nat) (u : Task) : Task :=
  { u with result := some r, status := TaskStatus.completed,
           completed_at := some ⟨c⟩ }

/-- `task.status = TaskStatus.FAILED; task.error = str(e)` -/
def markFailedWith (m : String) (u : Task) : Task :=
  { u with status := TaskStatus.failed, error := some m }

/-- Outcome of one `agent.execute_task(description)` call: a returned
result or a raised exception whose `str(e)` is `msg`. -/
inductive ExecResult where
  | ok (result : String)
  | err (msg : String)
deriving DecidableEq, Repr

/-- Embedding of a registered agent (`WorkflowMemory` plus the
role-specific `execute_task` the coordinator calls).  `persona` is
carried only to distinguish distinct agent objects bound to one role. -/
structure Agent where
  role : String
  persona : String
  execute : String → ExecResult

/-- Lookup in an ordered association list (Python `d[k]` / `d.get(k)`). -/
def lookupA {α : Type} (m : List (String × α)) (k : String) : Option α :=
  match m with
  | [] => none
  | (k', v) :: rest => if k' = k then some v else lookupA rest k

/-- Insertion into an ordered association list with Python `dict`
assignment semantics: an existing key keeps its position and gets the new
value, a fresh key is appended at the end. -/
def insertA {α : Type} (m : List (String × α)) (k : String) (v : α) :
    List (String × α) :=
  match m with
  | [] => [(k, v)]
  | (k', v') :: rest =>
    if k' = k then (k, v) :: rest else (k', v') :: insertA rest k v

/-- Update the value stored at a key in place (Python mutation of the
object stored under `k`); absent keys are left untouched. -/
def updateA {α : Type} (m : List (String × α)) (k : String) (f : α → α) :
    List (String × α) :=
  m.map (fun p => if p.1 = k then (k, f p.2) else p)

/-- The key list of an association list (Python `d.keys()`). -/
def keysA {α : Type} (m : List (String × α)) : List String :=
  m.map Prod.fst

/-- Embedding of the mutable state of a `WorkflowCoordinator` instance.
`clock` is the ambient time source and `log` is the ghost record of
executor invocations (ids passed to `execute_task`). -/
structure Coordinator where
  agents : List (String × Agent)
  tasks : List (String × Task)
  task_queue : List String
  dependencies : List (String × List String)
  running_tasks : List String
  clock : Nat
  log : List String

/-- `WorkflowCoordinator.__init__`: all collections start empty. -/
def Coordinator.initState : Coordinator :=
  { agents := [], tasks := [], task_queue := [], dependencies := [],
    running_tasks := [], clock := 0, log := [] }

/-- Embedding of `WorkflowCoordinator.register_agent`:
`self.agents[memory.role] = memory` with no check of any kind. -/
def registerAgent (s : Coordinator) (memory : Agent) : Coordinator :=
  { s with agents := insertA s.agents memory.role memory }

/-- Embedding of `WorkflowCoordinator.add_task`.  The `Except` layer
carries the one raised exception (`ValueError` when the role is not
registered); `.ok` returns the post state together with the created
(and stored) task record.  Note the source stores the record in
`self.tasks` before testing `d in self.tasks`, and computes the blocked
flag from membership of each dependency id in `self.tasks`, not from
dependency completion. -/
def addTask (s : Coordinator) (role description task_id : String)
    (dependencies : Option (List String)) :
    Except String (Coordinator × Task) :=
  if (lookupA s.agents role).isNone then
    Except.error ("Agent role '" ++ role ++ "' not registered")
  else
    let depsList := dependencies.getD []
    let task : Task :=
      { id := task_id, role := role, description := description,
        dependencies := depsList }
    let tasks1 := insertA s.tasks task_id task
    if depsList ≠ [] then
      -- self.dependencies[task_id] = set(dependencies)
      let s1 : Coordinator :=
        { s with tasks := tasks1,
                 dependencies :=
                   insertA s.dependencies task_id depsList.eraseDups }
      if ¬ depsList.all (fun d => (lookupA tasks1 d).isSome) then
        -- task.status = TaskStatus.BLOCKED mutates the stored record
        let task1 : Task := { task with status := TaskStatus.blocked }
        Except.ok ({ s1 with tasks := insertA s1.tasks task_id task1 }, task1)
      else
        Except.ok ({ s1 with task_queue := s1.task_queue ++ [task_id] }, task)
    else
      Except.ok ({ s with tasks := tasks1,
                          task_queue := s.task_queue ++ [task_id] }, task)

/-- Convenience wrapper returning the post state of `add_task` (the
pre state when the call raises). -/
def addTaskState (s : Coordinator) (role description task_id : String)
    (dependencies : Option (List String)) : Coordinator :=
  match addTask s role description task_id dependencies with
  | Except.ok (s', _) => s'
  | Except.error _ => s

/-- One iteration of the `for task_id, deps in self.dependencies.items()`
body of `unblock_dependent_tasks`, applied to the entry stored under
`tid`. -/
def unblockStep (cid : String) (s : Coordinator) (tid : String) :
    Coordinator :=
  match lookupA s.dependencies tid with
  | none => s
  | some deps =>
    if cid ∈ deps then
      let deps' := deps.erase cid
      let s1 : Coordinator :=
        { s with dependencies := updateA s.dependencies tid (fun _ => deps') }
      if deps' = [] then
        match lookupA s1.tasks tid with
        | some t =>
          if t.status = TaskStatus.blocked then
            { s1 with
              tasks := updateA s1.tasks tid markPending,
              task_queue := s1.task_queue ++ [tid] }
          else s1
        | none => s1
      else s1
    else s

/-- Embedding of `WorkflowCoordinator.unblock_dependent_tasks`: iterate
over the dependency-index entries in insertion order; the iteration only
mutates values, never the key set, so folding over the initial key list
is faithful. -/
def unblockDependentTasks (s : Coordinator) (cid : String) : Coordinator :=
  (keysA s.dependencies).foldl (unblockStep cid) s

/-- Status of the record stored under an id, if any. -/
def statusOf (s : Coordinator) (tid : String) : Option TaskStatus :=
  (lookupA s.tasks tid).map Task.status

/-- The dependency check loop at the top of `process_task`: true when
some listed dependency is missing from `self.tasks` or has a status
other than `COMPLETED`. -/
def depsNotReady (s : Coordinator) (t : Task) : Bool :=
  t.dependencies.any (fun d =>
    match lookupA s.tasks d with
    | none => true
    | some dt => dt.status ≠ TaskStatus.completed)

/-- Embedding of `WorkflowCoordinator.process_task`, which the scheduler
loop calls on a dequeued record.  The queue only ever holds stored
records, so the record is fetched by id.  The `try` body cannot raise out
of the method: every exception is caught, recorded on the task, and the
`finally` block unregisters the id from `running_tasks`. -/
def processTask (s : Coordinator) (tid : String) : Coordinator :=
  if tid ∈ s.running_tasks then s
  else
    match lookupA s.tasks tid with
    | none => s
    | some task =>
      if depsNotReady s task then
        -- a dependency is missing or not COMPLETED: mark BLOCKED, return
        { s with tasks := updateA s.tasks tid markBlocked }
      else
        let s1 : Coordinator :=
          { s with running_tasks := s.running_tasks ++ [tid],
                   tasks := updateA s.tasks tid (markStarted s.clock),
                   clock := s.clock + 1 }
        match lookupA s1.agents task.role with
        | none =>
          -- KeyError from self.agents[task.role], caught by the except
          -- branch before execute_task is ever invoked
          let failmsg := "'" ++ task.role ++ "'"
          let s2 : Coordinator :=
            { s1 with tasks := updateA s1.tasks tid (markFailedWith failmsg) }
          { s2 with running_tasks := s2.running_tasks.erase tid }
        | some agent =>
          -- dependency results are loaded and pushed into the agent's
          -- own state here; that state is agent-side only
          match agent.execute task.description with
          | ExecResult.ok r =>
            let s2 : Coordinator :=
              { s1 with tasks := updateA s1.tasks tid (markDone r s1.clock),
                        clock := s1.clock + 1, log := s1.log ++ [tid] }
            let s3 := unblockDependentTasks s2 tid
            { s3 with running_tasks := s3.running_tasks.erase tid }
          | ExecResult.err m =>
            let s2 : Coordinator :=
              { s1 with tasks := updateA s1.tasks tid (markFailedWith m),
                        log := s1.log ++ [tid] }
            { s2 with running_tasks := s2.running_tasks.erase tid }

/-- The `pending_tasks` list computed inside `run_workflow`: every stored
record whose status is `PENDING` or `BLOCKED`. -/
def pendingTasks (s : Coordinator) : List Task :=
  (s.tasks.map Prod.snd).filter
    (fun t => t.status = TaskStatus.pending ∨ t.status = TaskStatus.blocked)

/-- The `break` condition of `run_workflow`: empty queue, nothing
in flight, and no stored task `PENDING` or `BLOCKED`. -/
def exitCond (s : Coordinator) : Prop :=
  s.task_queue = [] ∧ s.running_tasks = [] ∧ pendingTasks s = []

instance (s : Coordinator) : Decidable (exitCond s) := by
  unfold exitCond
  infer_instance

/-- One pass of the `run_workflow` loop body past the `break` check: a
non-empty queue yields its head to `process_task`; an empty queue makes
`asyncio.wait_for` time out after one second and the loop continue with
the state unchanged. -/
def stepOnce (s : Coordinator) : Coordinator :=
  match s.task_queue with
  | [] => s
  | tid :: rest => processTask { s with task_queue := rest } tid

/-- Embedding of `WorkflowCoordinator.run_workflow` with explicit fuel:
`some s'` means the loop reached its `break` in at most the given number
of iterations, `none` that the fuel was exhausted first. -/
def runWorkflowAux : Nat → Coordinator → Option Coordinator
  | 0, _ => none
  | n + 1, s =>
    if exitCond s then some s else runWorkflowAux n (stepOnce s)

/-- `run_workflow` terminates from a state when some finite number of
loop iterations reaches the `break`. -/
def runWorkflowTerminates (s : Coordinator) : Prop :=
  ∃ n s', runWorkflowAux n s = some s'

/-- The state after a given number of `run_workflow` loop iterations;
once the `break` condition holds the state is stable. -/
def loopIter : Nat → Coordinator → Coordinator
  | 0, s => s
  | n + 1, s => if exitCond s then s else loopIter n (stepOnce s)

/-- One serialized task entry of the dict returned by
`get_workflow_status`. -/
structure TaskReport where
  status : String
  role : String
  description : String
  created_at : String
  started_at : Option String
  completed_at : Option String
  error : Option String
deriving DecidableEq, Repr

/-- The dict returned by `get_workflow_status`. -/
structure WorkflowStatusReport where
  tasks : List (String × TaskReport)
  agents : List String
  running_tasks : List String
deriving DecidableEq, Repr

/-- The per-task dict comprehension body of `get_workflow_status`. -/
def taskReport (t : Task) : TaskReport :=
  { status := t.status.value,
    role := t.role,
    description := t.description,
    created_at := t.created_at.isoformat,
    started_at := t.started_at.map DateTime.isoformat,
    completed_at := t.completed_at.map DateTime.isoformat,
    error := t.error }

/-- Embedding of `WorkflowCoordinator.get_workflow_status`: the returned
report paired with the post state of the call (the method body is a
single `return` expression and performs no writes). -/
def getWorkflowStatus (s : Coordinator) : WorkflowStatusReport × Coordinator :=
  ({ tasks := s.tasks.map (fun p => (p.1, taskReport p.2)),
     agents := keysA s.agents,
     running_tasks := s.running_tasks }, s)

/-- Executor for role `"r"` that always succeeds. -/
def agentOk : Agent :=
  { role := "r", persona := "p1", execute := fun _ => ExecResult.ok "done" }

/-- A second, distinct executor object for the same role `"r"`. -/
def agentOk2 : Agent :=
  { role := "r", persona := "p2", execute := fun _ => ExecResult.ok "done2" }

/-- Executor for role `"r"` that always raises `ValueError("Test error")`. -/
def agentErr : Agent :=
  { role := "r", persona := "p3", execute := fun _ => ExecResult.err "Test error" }

/-- Executor for role `"r"` that raises exactly on the description
`"boom"` and succeeds on any other description. -/
def agentMix : Agent :=
  { role := "r", persona := "p4",
    execute := fun d => if d = "boom" then ExecResult.err "Test error"
                        else ExecResult.ok "done" }

/-- Spec scenario: one registered role and a task `D` depending on the
never-submitted id `"ghost"`. -/
def sGhost : Coordinator :=
  addTaskState (registerAgent Coordinator.initState agentOk)
    "r" "task D" "D" (some ["ghost"])

/-- One registered role and a single dependency-free task `A`. -/
def sSimple : Coordinator :=
  addTaskState (registerAgent Coordinator.initState agentOk)
    "r" "Task A" "A" none

/-- C2 scenario from the repository test suite: task `task_001` with no
dependencies, then `task_002` depending on it while it is still
`PENDING`. -/
def sC2 : Coordinator :=
  addTaskState
    (addTaskState (registerAgent Coordinator.initState agentOk)
      "r" "Task 1" "task_001" none)
    "r" "Task 2" "task_002" (some ["task_001"])

/-- C3 scenario: task `A` runs to completion; then `D` is submitted
depending on the already-completed `A` and the not-yet-submitted `B`;
then `B` is submitted and processed. -/
def sC3 : Coordinator :=
  loopIter 1
    (addTaskState
      (addTaskState
        (loopIter 1
          (addTaskState (registerAgent Coordinator.initState agentMix)
            "r" "Task A" "A" none))
        "r" "Task D" "D" (some ["A", "B"]))
      "r" "Task B" "B" none)

/-- C4 scenario: a first submission under id `"X"`. -/
def sC4 : Coordinator :=
  addTaskState (registerAgent Coordinator.initState agentOk)
    "r" "first" "X" none

/-- C5 scenario: two distinct executors registered for the same role. -/
def sC5 : Coordinator :=
  registerAgent (registerAgent Coordinator.initState agentOk) agentOk2

/-- C6 scenario, before the run: a dependency-free task whose executor
raises. -/
def sC6pre : Coordinator :=
  addTaskState (registerAgent Coordinator.initState agentErr)
    "r" "Error task" "C" none

/-- C6 scenario after one scheduler iteration. -/
def sC6 : Coordinator :=
  loopIter 1 sC6pre

/-- C7 scenario, before the run: `F` (description `"boom"`) will fail,
`D` depends on it. -/
def sC7pre : Coordinator :=
  addTaskState
    (addTaskState (registerAgent Coordinator.initState agentMix)
      "r" "boom" "F" none)
    "r" "Task D" "D" (some ["F"])

/-- C7 scenario after one iteration: `F` has failed, `D` is still queued
as `PENDING`. -/
def sC7mid : Coordinator :=
  loopIter 1 sC7pre

/-- C7 scenario: `F` (description `"boom"`) fails, its dependent `D`
is then dequeued and re-blocked. -/
def sC7 : Coordinator :=
  loopIter 2 sC7pre

/-! ### Derived definitions used by the analysis -/

/-- The flip condition of one `unblock_dependent_tasks` iteration at one
dependency-index entry: the completed id is in the remaining set, its
removal empties the set, and the stored task is currently `BLOCKED`. -/
def flipCondB (s : Coordinator) (cid tid : String) : Bool :=
  match lookupA s.dependencies tid with
  | none => false
  | some deps =>
    decide (cid ∈ deps) && decide (deps.erase cid = []) &&
      decide (statusOf s tid = some TaskStatus.blocked)

/-- The fold underlying `unblockDependentTasks`, over an explicit key
list. -/
def unblockFold (cid : String) (L : List String) (s : Coordinator) :
    Coordinator :=
  L.foldl (unblockStep cid) s

/-- The scheduler state right after a successful `execute_task` call for
`tid` returning `r`, before dependents are unblocked and before the
`finally` block runs: the record carries the started and completed
stamps, the id is in flight, and the invocation is logged. -/
def execDoneState (s : Coordinator) (tid : String) (r : String) :
    Coordinator :=
  { s with running_tasks := s.running_tasks ++ [tid],
           tasks := updateA s.tasks tid
             (fun u => markDone r (s.clock + 1) (markStarted s.clock u)),
           clock := s.clock + 2,
           log := s.log ++ [tid] }

/-- The scheduler state after `process_task` catches an executor
exception with message `m` for `tid` (including the `finally` block). -/
def execFailState (s : Coordinator) (tid : String) (m : String) :
    Coordinator :=
  { s with running_tasks := (s.running_tasks ++ [tid]).erase tid,
           tasks := updateA s.tasks tid
             (fun u => markFailedWith m (markStarted s.clock u)),
           clock := s.clock + 1,
           log := s.log ++ [tid] }

/-- Invariant maintained by the `run_workflow` loop between iterations:
nothing is in flight, the queue holds pairwise-distinct ids of `PENDING`
records, every stored task's role is registered, the executor-invocation
log counts exactly the terminal records, all maps have distinct keys and
the dependency index only mentions stored ids. -/
def Inv (s : Coordinator) : Prop :=
  s.running_tasks = [] ∧
  s.task_queue.Nodup ∧
  (∀ x ∈ s.task_queue, statusOf s x = some TaskStatus.pending) ∧
  (∀ p ∈ s.tasks, (lookupA s.agents p.2.role).isSome = true) ∧
  (∀ p ∈ s.tasks, s.log.count p.1 =
    (if p.2.status = TaskStatus.completed ∨ p.2.status = TaskStatus.failed
     then 1 else 0)) ∧
  (∀ e ∈ s.log, (lookupA s.tasks e).isSome = true) ∧
  (keysA s.tasks).Nodup ∧
  (keysA s.dependencies).Nodup ∧
  (∀ k ∈ keysA s.dependencies, (lookupA s.tasks k).isSome = true)

instance (s : Coordinator) : Decidable (Inv s) := by
  unfold Inv
  infer_instance

/-- Number of `execute_task` invocations recorded for an id. -/
def execCount (s : Coordinator) (tid : String) : Nat :=
  s.log.count tid

/-- A task `D` that lists the failed task `F` among its dependencies,
with `F` still in its remaining dependency set, and that has not been
executed (it is `PENDING` or `BLOCKED`). -/
def BlockedOnFailed (s : Coordinator) (F D : String) : Prop :=
  statusOf s F = some TaskStatus.failed ∧
  (∃ tD, lookupA s.tasks D = some tD ∧ F ∈ tD.dependencies) ∧
  (∃ deps, lookupA s.dependencies D = some deps ∧ F ∈ deps) ∧
  (statusOf s D = some TaskStatus.pending ∨
    statusOf s D = some TaskStatus.blocked)

/-- The final state of the one-task run used as a witness. -/
def sSimpleFinal : Coordinator :=
  (runWorkflowAux 2 sSimple).getD Coordinator.initState

/-- The record stored for the C6 scenario task `C` at submission. -/
def taskC : Task :=
  { id := "C", role := "r", description := "Error task", dependencies := [] }

/-- The record stored for the C7 scenario task `D` at submission. -/
def taskD7 : Task :=
  { id := "D", role := "r", description := "Task D", dependencies := ["F"] }

/-- The task record created by a first concrete submission (clock 0). -/
def tW1 : Task :=
  { id := "A2", role := "r", description := "early", dependencies := [] }

/-- The task record created by a later concrete submission (clock 1,
after a task has already been executed). -/
def tW2 : Task :=
  { id := "B2", role := "r", description := "late", dependencies := [] }

/-! ### Association-list lemmas -/

theorem lookupA_insertA {α : Type} (m : List (String × α)) (k k' : String)
    (v : α) :
    lookupA (insertA m k v) k' = if k = k' then some v else lookupA m k' := by
  induction m with
  | nil => simp [insertA, lookupA]
  | cons p rest ih =>
    obtain ⟨k₀, v₀⟩ := p
    by_cases h : k₀ = k
    · subst h
      by_cases h' : k₀ = k'
      · subst h'
        simp [insertA, lookupA]
      · simp [insertA, lookupA, h']
    · by_cases h' : k₀ = k'
      · subst h'
        have hk : ¬ k = k₀ := fun hh => h hh.symm
        simp [insertA, lookupA, h, hk]
      · simp [insertA, lookupA, h, h', ih]

theorem lookupA_updateA {α : Type} (m : List (String × α)) (k k' : String)
    (f : α → α) :
    lookupA (updateA m k f) k' =
      if k = k' then (lookupA m k).map f else lookupA m k' := by
  induction m with
  | nil => simp [updateA, lookupA]
  | cons p rest ih =>
    obtain ⟨k₀, v₀⟩ := p
    have hcons : updateA ((k₀, v₀) :: rest) k f =
        (if k₀ = k then (k, f v₀) else (k₀, v₀)) :: updateA rest k f := rfl
    rw [hcons]
    by_cases h : k₀ = k
    · rw [if_pos h]
      by_cases h' : k = k'
      · simp [lookupA, h, h']
      · simp [lookupA, h, h', ih]
    · rw [if_neg h]
      by_cases h' : k₀ = k'
      · have hkk' : ¬ k = k' := fun hh => h (h'.trans hh.symm)
        simp [lookupA, h', hkk']
      · simp [lookupA, h, h', ih]

theorem keysA_updateA {α : Type} (m : List (String × α)) (k : String)
    (f : α → α) :
    keysA (updateA m k f) = keysA m := by
  induction m with
  | nil => rfl
  | cons p rest ih =>
    obtain ⟨k₀, v₀⟩ := p
    by_cases h : k₀ = k
    · subst h
      simpa [updateA, keysA] using ih
    · simpa [updateA, keysA, h] using ih

theorem lookupA_isSome_iff {α : Type} (m : List (String × α)) (k : String) :
    (lookupA m k).isSome = true ↔ k ∈ keysA m := by
  induction m with
  | nil => simp [lookupA, keysA]
  | cons p rest ih =>
    obtain ⟨k₀, v₀⟩ := p
    by_cases h : k₀ = k
    · subst h
      simp [lookupA, keysA]
    · have h' : ¬ k = k₀ := fun hh => h hh.symm
      simp [lookupA, keysA, h, h', ih]

theorem mem_of_lookupA_eq_some {α : Type} {m : List (String × α)}
    {k : String} {v : α} (h : lookupA m k = some v) : (k, v) ∈ m := by
  induction m with
  | nil => simp [lookupA] at h
  | cons p rest ih =>
    obtain ⟨k₀, v₀⟩ := p
    by_cases hk : k₀ = k
    · subst hk
      simp [lookupA] at h
      simp [h]
    · simp [lookupA, hk] at h
      exact List.mem_cons_of_mem _ (ih h)

theorem lookupA_eq_some_of_mem {α : Type} {m : List (String × α)}
    (hnd : (keysA m).Nodup) {p : String × α} (hp : p ∈ m) :
    lookupA m p.1 = some p.2 := by
  induction m with
  | nil => simp at hp
  | cons q rest ih =>
    obtain ⟨k₀, v₀⟩ := q
    have hc : keysA ((k₀, v₀) :: rest) = k₀ :: keysA rest := rfl
    rw [hc] at hnd
    have hnotin := (List.nodup_cons.mp hnd).1
    have hnd' := (List.nodup_cons.mp hnd).2
    rcases List.mem_cons.mp hp with h | h
    · subst h
      simp [lookupA]
    · have hne : ¬ k₀ = p.1 := by
        intro hk
        apply hnotin
        rw [hk]
        simpa [keysA] using List.mem_map_of_mem Prod.fst h
      simp [lookupA, hne]
      exact ih hnd' h

/-! ### Characterization of one unblocking iteration -/

theorem unblockStep_eq (cid : String) (s : Coordinator) (tid : String) :
    unblockStep cid s tid =
      { s with
        dependencies :=
          match lookupA s.dependencies tid with
          | none => s.dependencies
          | some deps =>
            if cid ∈ deps then
              updateA s.dependencies tid (fun _ => deps.erase cid)
            else s.dependencies,
        tasks :=
          if flipCondB s cid tid then
            updateA s.tasks tid markPending
          else s.tasks,
        task_queue :=
          s.task_queue ++ (if flipCondB s cid tid then [tid] else []) } := by
  unfold unblockStep flipCondB
  cases hd : lookupA s.dependencies tid with
  | none => simp
  | some deps =>
    by_cases h1 : cid ∈ deps
    · simp only [if_pos h1, h1, decide_True, Bool.true_and]
      by_cases h2 : deps.erase cid = []
      · simp only [if_pos h2, h2, decide_True, Bool.true_and]
        cases ht : lookupA s.tasks tid with
        | none =>
          simp [statusOf, ht]
        | some t =>
          by_cases h3 : t.status = TaskStatus.blocked
          · simp [statusOf, ht, h3]
          · simp [statusOf, ht, h3]
      · simp [if_neg h2, h2]
    · simp [h1]

theorem unblockStep_agents (cid : String) (s : Coordinator) (tid : String) :
    (unblockStep cid s tid).agents = s.agents := by
  rw [unblockStep_eq]

theorem unblockStep_running (cid : String) (s : Coordinator) (tid : String) :
    (unblockStep cid s tid).running_tasks = s.running_tasks := by
  rw [unblockStep_eq]

theorem unblockStep_clock (cid : String) (s : Coordinator) (tid : String) :
    (unblockStep cid s tid).clock = s.clock := by
  rw [unblockStep_eq]

theorem unblockStep_log (cid : String) (s : Coordinator) (tid : String) :
    (unblockStep cid s tid).log = s.log := by
  rw [unblockStep_eq]

theorem unblockStep_tasks (cid : String) (s : Coordinator) (tid : String) :
    (unblockStep cid s tid).tasks =
      if flipCondB s cid tid then
        updateA s.tasks tid markPending
      else s.tasks := by
  rw [unblockStep_eq]

theorem unblockStep_queue (cid : String) (s : Coordinator) (tid : String) :
    (unblockStep cid s tid).task_queue =
      s.task_queue ++ (if flipCondB s cid tid then [tid] else []) := by
  rw [unblockStep_eq]

theorem unblockStep_deps_lookup (cid : String) (s : Coordinator)
    (tid tid' : String) :
    lookupA (unblockStep cid s tid).dependencies tid' =
      if tid = tid' then
        (lookupA s.dependencies tid).map (fun deps => deps.erase cid)
      else lookupA s.dependencies tid' := by
  rw [unblockStep_eq]
  cases hd : lookupA s.dependencies tid with
  | none =>
    by_cases h : tid = tid'
    · subst h
      simp [hd]
    · simp [h]
  | some deps =>
    by_cases h1 : cid ∈ deps
    · simp only [if_pos h1]
      rw [lookupA_updateA]
      by_cases h : tid = tid'
      · subst h
        simp [hd]
      · simp [h]
    · simp only [if_neg h1]
      by_cases h : tid = tid'
      · subst h
        simp [hd, List.erase_of_not_mem h1]
      · simp [h]

theorem unblockStep_tasks_lookup (cid : String) (s : Coordinator)
    (tid tid' : String) :
    lookupA (unblockStep cid s tid).tasks tid' =
      if tid = tid' ∧ flipCondB s cid tid then
        (lookupA s.tasks tid').map markPending
      else lookupA s.tasks tid' := by
  rw [unblockStep_tasks]
  by_cases hf : flipCondB s cid tid
  · rw [if_pos hf, lookupA_updateA]
    by_cases h : tid = tid'
    · subst h
      simp [hf]
    · simp [h, hf]
  · simp [hf]

theorem flipCondB_unblockStep (cid : String) (s : Coordinator)
    {tid tid' : String} (h : tid ≠ tid') :
    flipCondB (unblockStep cid s tid) cid tid' = flipCondB s cid tid' := by
  unfold flipCondB
  rw [unblockStep_deps_lookup, if_neg h]
  cases hd : lookupA s.dependencies tid' with
  | none => rfl
  | some deps =>
    have hst : statusOf (unblockStep cid s tid) tid' = statusOf s tid' := by
      unfold statusOf
      rw [unblockStep_tasks_lookup]
      simp [h]
    rw [hst]

/-! ### Characterization of the whole unblocking pass -/

theorem unblockDependentTasks_eq_fold (s : Coordinator) (cid : String) :
    unblockDependentTasks s cid = unblockFold cid (keysA s.dependencies) s :=
  rfl

theorem unblockFold_agents (cid : String) (L : List String)
    (s : Coordinator) : (unblockFold cid L s).agents = s.agents := by
  induction L generalizing s with
  | nil => rfl
  | cons x L ih =>
    show (unblockFold cid L (unblockStep cid s x)).agents = s.agents
    rw [ih, unblockStep_agents]

theorem unblockFold_running (cid : String) (L : List String)
    (s : Coordinator) :
    (unblockFold cid L s).running_tasks = s.running_tasks := by
  induction L generalizing s with
  | nil => rfl
  | cons x L ih =>
    show (unblockFold cid L (unblockStep cid s x)).running_tasks =
      s.running_tasks
    rw [ih, unblockStep_running]

theorem unblockFold_clock (cid : String) (L : List String)
    (s : Coordinator) : (unblockFold cid L s).clock = s.clock := by
  induction L generalizing s with
  | nil => rfl
  | cons x L ih =>
    show (unblockFold cid L (unblockStep cid s x)).clock = s.clock
    rw [ih, unblockStep_clock]

theorem unblockFold_log (cid : String) (L : List String)
    (s : Coordinator) : (unblockFold cid L s).log = s.log := by
  induction L generalizing s with
  | nil => rfl
  | cons x L ih =>
    show (unblockFold cid L (unblockStep cid s x)).log = s.log
    rw [ih, unblockStep_log]

theorem unblockFold_deps_lookup (cid : String) (L : List String)
    (s : Coordinator) (tid : String) (hnd : L.Nodup) :
    lookupA (unblockFold cid L s).dependencies tid =
      if tid ∈ L then
        (lookupA s.dependencies tid).map (fun deps => deps.erase cid)
      else lookupA s.dependencies tid := by
  induction L generalizing s with
  | nil => simp [unblockFold]
  | cons x L ih =>
    have hx : x ∉ L := (List.nodup_cons.mp hnd).1
    have hndL : L.Nodup := (List.nodup_cons.mp hnd).2
    show lookupA (unblockFold cid L (unblockStep cid s x)).dependencies tid = _
    rw [ih _ hndL]
    by_cases h : tid = x
    · subst h
      simp [hx, unblockStep_deps_lookup]
    · have hxx : ¬ x = tid := fun hh => h hh.symm
      rw [unblockStep_deps_lookup, if_neg hxx]
      by_cases hmem : tid ∈ L
      · simp [hmem, h]
      · simp [hmem, h]

theorem unblockFold_tasks_lookup (cid : String) (L : List String)
    (s : Coordinator) (tid : String) (hnd : L.Nodup) :
    lookupA (unblockFold cid L s).tasks tid =
      if tid ∈ L ∧ flipCondB s cid tid then
        (lookupA s.tasks tid).map markPending
      else lookupA s.tasks tid := by
  induction L generalizing s with
  | nil => simp [unblockFold]
  | cons x L ih =>
    have hx : x ∉ L := (List.nodup_cons.mp hnd).1
    have hndL : L.Nodup := (List.nodup_cons.mp hnd).2
    show lookupA (unblockFold cid L (unblockStep cid s x)).tasks tid = _
    rw [ih _ hndL]
    by_cases h : tid = x
    · subst h
      rw [if_neg (by intro hc; exact hx hc.1)]
      rw [unblockStep_tasks_lookup]
      by_cases hf : flipCondB s cid tid
      · simp [hf]
      · simp [hf]
    · have hxx : x ≠ tid := fun hh => h hh.symm
      simp only [flipCondB_unblockStep cid s hxx, unblockStep_tasks_lookup]
      by_cases hmem : tid ∈ L
      · simp [hmem, h, hxx]
      · simp [hmem, h, hxx]

theorem unblockFold_queue (cid : String) (L : List String)
    (s : Coordinator) (hnd : L.Nodup) :
    (unblockFold cid L s).task_queue =
      s.task_queue ++ L.filter (fun x => flipCondB s cid x) := by
  induction L generalizing s with
  | nil => simp [unblockFold]
  | cons x L ih =>
    have hx : x ∉ L := (List.nodup_cons.mp hnd).1
    have hndL : L.Nodup := (List.nodup_cons.mp hnd).2
    show (unblockFold cid L (unblockStep cid s x)).task_queue = _
    rw [ih _ hndL]
    have hcongr : L.filter (fun y => flipCondB (unblockStep cid s x) cid y) =
        L.filter (fun y => flipCondB s cid y) := by
      apply List.filter_congr
      intro y hy
      have hxy : x ≠ y := fun hh => hx (hh ▸ hy)
      rw [flipCondB_unblockStep cid s hxy]
    rw [hcongr, unblockStep_queue]
    by_cases hf : flipCondB s cid x
    · simp [hf, List.filter_cons]
    · simp [hf, List.filter_cons]

theorem unblockFold_statusOf (cid : String) (L : List String)
    (s : Coordinator) (tid : String) (hnd : L.Nodup) :
    statusOf (unblockFold cid L s) tid =
      if tid ∈ L ∧ flipCondB s cid tid then
        (statusOf s tid).map (fun _ => TaskStatus.pending)
      else statusOf s tid := by
  unfold statusOf
  rw [unblockFold_tasks_lookup cid L s tid hnd]
  by_cases h : tid ∈ L ∧ flipCondB s cid tid
  · simp [h, Option.map_map]
    rfl
  · simp [h]

/-! ### Characterization of process_task -/

theorem updateA_updateA {α : Type} (m : List (String × α)) (k : String)
    (f g : α → α) :
    updateA (updateA m k f) k g = updateA m k (fun v => g (f v)) := by
  unfold updateA
  rw [List.map_map]
  apply List.map_congr_left
  intro p _
  by_cases h : p.1 = k
  · simp [Function.comp, h]
  · simp [Function.comp, h]

theorem erase_append_self (l : List String) (a : String) (h : a ∉ l) :
    (l ++ [a]).erase a = l := by
  rw [List.erase_append_right _ h]
  simp

theorem processTask_in_running (s : Coordinator) (tid : String)
    (h : tid ∈ s.running_tasks) : processTask s tid = s := by
  unfold processTask
  rw [if_pos h]

theorem processTask_no_record (s : Coordinator) (tid : String)
    (hrun : tid ∉ s.running_tasks) (ht : lookupA s.tasks tid = none) :
    processTask s tid = s := by
  simp [processTask, hrun, ht]

theorem processTask_blocked_eq (s : Coordinator) (tid : String) (t : Task)
    (hrun : tid ∉ s.running_tasks) (ht : lookupA s.tasks tid = some t)
    (hdep : depsNotReady s t = true) :
    processTask s tid = { s with tasks := updateA s.tasks tid markBlocked } := by
  simp [processTask, hrun, ht, hdep]

theorem processTask_ok_eq (s : Coordinator) (tid : String) (t : Task)
    (ag : Agent) (r : String)
    (hrun : tid ∉ s.running_tasks) (ht : lookupA s.tasks tid = some t)
    (hdep : depsNotReady s t = false)
    (hag : lookupA s.agents t.role = some ag)
    (hex : ag.execute t.description = ExecResult.ok r) :
    processTask s tid =
      { unblockDependentTasks (execDoneState s tid r) tid with
        running_tasks :=
          List.erase
            (unblockDependentTasks (execDoneState s tid r) tid).running_tasks
            tid } := by
  simp [processTask, hrun, ht, hdep, hag, hex, execDoneState, updateA_updateA]

theorem processTask_err_eq (s : Coordinator) (tid : String) (t : Task)
    (ag : Agent) (m : String)
    (hrun : tid ∉ s.running_tasks) (ht : lookupA s.tasks tid = some t)
    (hdep : depsNotReady s t = false)
    (hag : lookupA s.agents t.role = some ag)
    (hex : ag.execute t.description = ExecResult.err m) :
    processTask s tid = execFailState s tid m := by
  simp [processTask, hrun, ht, hdep, hag, hex, execFailState, updateA_updateA]

/-! ### Field facts for the task mutations -/

@[simp] theorem markPending_status (u : Task) :
    (markPending u).status = TaskStatus.pending := rfl

@[simp] theorem markPending_role (u : Task) :
    (markPending u).role = u.role := rfl

@[simp] theorem markPending_dependencies (u : Task) :
    (markPending u).dependencies = u.dependencies := rfl

@[simp] theorem markBlocked_status (u : Task) :
    (markBlocked u).status = TaskStatus.blocked := rfl

@[simp] theorem markBlocked_role (u : Task) :
    (markBlocked u).role = u.role := rfl

@[simp] theorem markDone_status (r : String) (c : Nat) (u : Task) :
    (markDone r c u).status = TaskStatus.completed := rfl

@[simp] theorem markDone_role (r : String) (c : Nat) (u : Task) :
    (markDone r c u).role = u.role := rfl

@[simp] theorem markStarted_role (c : Nat) (u : Task) :
    (markStarted c u).role = u.role := rfl

@[simp] theorem markFailedWith_status (m : String) (u : Task) :
    (markFailedWith m u).status = TaskStatus.failed := rfl

@[simp] theorem markFailedWith_role (m : String) (u : Task) :
    (markFailedWith m u).role = u.role := rfl

/-! ### Key preservation through unblocking -/

theorem unblockStep_tasks_keys (cid : String) (s : Coordinator)
    (tid : String) :
    keysA (unblockStep cid s tid).tasks = keysA s.tasks := by
  rw [unblockStep_tasks]
  by_cases hf : flipCondB s cid tid
  · rw [if_pos hf, keysA_updateA]
  · rw [if_neg hf]

theorem unblockFold_tasks_keys (cid : String) (L : List String)
    (s : Coordinator) :
    keysA (unblockFold cid L s).tasks = keysA s.tasks := by
  induction L generalizing s with
  | nil => rfl
  | cons x L ih =>
    show keysA (unblockFold cid L (unblockStep cid s x)).tasks = _
    rw [ih, unblockStep_tasks_keys]

theorem unblockStep_deps_keys (cid : String) (s : Coordinator)
    (tid : String) :
    keysA (unblockStep cid s tid).dependencies = keysA s.dependencies := by
  rw [unblockStep_eq]
  show keysA (match lookupA s.dependencies tid with
    | none => s.dependencies
    | some deps =>
      if cid ∈ deps then updateA s.dependencies tid (fun _ => deps.erase cid)
      else s.dependencies) = keysA s.dependencies
  cases lookupA s.dependencies tid with
  | none => rfl
  | some deps =>
    dsimp only
    by_cases h1 : cid ∈ deps
    · rw [if_pos h1, keysA_updateA]
    · rw [if_neg h1]

theorem unblockFold_deps_keys (cid : String) (L : List String)
    (s : Coordinator) :
    keysA (unblockFold cid L s).dependencies = keysA s.dependencies := by
  induction L generalizing s with
  | nil => rfl
  | cons x L ih =>
    show keysA (unblockFold cid L (unblockStep cid s x)).dependencies = _
    rw [ih, unblockStep_deps_keys]

/-! ### Flip condition at the post-execution state -/

theorem flipCondB_execDone_ne (s : Coordinator) (tid r : String)
    {x : String} (h : ¬ tid = x) :
    flipCondB (execDoneState s tid r) tid x = flipCondB s tid x := by
  unfold flipCondB statusOf execDoneState
  simp only [lookupA_updateA, if_neg h]

theorem flipCondB_execDone_self (s : Coordinator) (tid r : String)
    (t : Task) (ht : lookupA s.tasks tid = some t) :
    flipCondB (execDoneState s tid r) tid tid = false := by
  unfold flipCondB statusOf execDoneState
  simp only [lookupA_updateA, if_pos rfl, ht]
  cases lookupA s.dependencies tid with
  | none => rfl
  | some deps => simp [markDone]

theorem flipCondB_mem_keys {s : Coordinator} {cid x : String}
    (h : flipCondB s cid x = true) : x ∈ keysA s.dependencies := by
  rw [← lookupA_isSome_iff]
  unfold flipCondB at h
  cases hd : lookupA s.dependencies x with
  | none => rw [hd] at h; exact absurd h (by simp)
  | some deps => simp

theorem flipCondB_blocked {s : Coordinator} {cid x : String}
    (h : flipCondB s cid x = true) :
    statusOf s x = some TaskStatus.blocked := by
  unfold flipCondB at h
  cases hd : lookupA s.dependencies x with
  | none => rw [hd] at h; exact absurd h (by simp)
  | some deps =>
    rw [hd] at h
    simp only [Bool.and_eq_true, decide_eq_true_eq] at h
    exact h.2

/-! ### Projections of process_task in the successful case -/

theorem processTask_ok_agents (s : Coordinator) (tid : String) (t : Task)
    (ag : Agent) (r : String)
    (hrun : tid ∉ s.running_tasks) (ht : lookupA s.tasks tid = some t)
    (hdep : depsNotReady s t = false)
    (hag : lookupA s.agents t.role = some ag)
    (hex : ag.execute t.description = ExecResult.ok r) :
    (processTask s tid).agents = s.agents := by
  rw [processTask_ok_eq s tid t ag r hrun ht hdep hag hex]
  show (unblockDependentTasks (execDoneState s tid r) tid).agents = s.agents
  rw [unblockDependentTasks_eq_fold, unblockFold_agents]
  rfl

theorem processTask_ok_log (s : Coordinator) (tid : String) (t : Task)
    (ag : Agent) (r : String)
    (hrun : tid ∉ s.running_tasks) (ht : lookupA s.tasks tid = some t)
    (hdep : depsNotReady s t = false)
    (hag : lookupA s.agents t.role = some ag)
    (hex : ag.execute t.description = ExecResult.ok r) :
    (processTask s tid).log = s.log ++ [tid] := by
  rw [processTask_ok_eq s tid t ag r hrun ht hdep hag hex]
  show (unblockDependentTasks (execDoneState s tid r) tid).log = _
  rw [unblockDependentTasks_eq_fold, unblockFold_log]
  rfl

theorem processTask_ok_clock (s : Coordinator) (tid : String) (t : Task)
    (ag : Agent) (r : String)
    (hrun : tid ∉ s.running_tasks) (ht : lookupA s.tasks tid = some t)
    (hdep : depsNotReady s t = false)
    (hag : lookupA s.agents t.role = some ag)
    (hex : ag.execute t.description = ExecResult.ok r) :
    (processTask s tid).clock = s.clock + 2 := by
  rw [processTask_ok_eq s tid t ag r hrun ht hdep hag hex]
  show (unblockDependentTasks (execDoneState s tid r) tid).clock = _
  rw [unblockDependentTasks_eq_fold, unblockFold_clock]
  rfl

theorem processTask_ok_running (s : Coordinator) (tid : String) (t : Task)
    (ag : Agent) (r : String)
    (hrun : tid ∉ s.running_tasks) (ht : lookupA s.tasks tid = some t)
    (hdep : depsNotReady s t = false)
    (hag : lookupA s.agents t.role = some ag)
    (hex : ag.execute t.description = ExecResult.ok r) :
    (processTask s tid).running_tasks = s.running_tasks := by
  rw [processTask_ok_eq s tid t ag r hrun ht hdep hag hex]
  show List.erase
    (unblockDependentTasks (execDoneState s tid r) tid).running_tasks tid = _
  rw [unblockDependentTasks_eq_fold, unblockFold_running]
  exact erase_append_self _ _ hrun

theorem processTask_ok_queue (s : Coordinator) (tid : String) (t : Task)
    (ag : Agent) (r : String)
    (hrun : tid ∉ s.running_tasks) (ht : lookupA s.tasks tid = some t)
    (hdep : depsNotReady s t = false)
    (hag : lookupA s.agents t.role = some ag)
    (hex : ag.execute t.description = ExecResult.ok r)
    (hnd : (keysA s.dependencies).Nodup) :
    (processTask s tid).task_queue =
      s.task_queue ++ (keysA s.dependencies).filter
        (fun x => flipCondB (execDoneState s tid r) tid x) := by
  rw [processTask_ok_eq s tid t ag r hrun ht hdep hag hex]
  show (unblockDependentTasks (execDoneState s tid r) tid).task_queue = _
  rw [unblockDependentTasks_eq_fold]
  exact unblockFold_queue tid (keysA s.dependencies) (execDoneState s tid r) hnd

theorem processTask_ok_tasks_lookup (s : Coordinator) (tid : String)
    (t : Task) (ag : Agent) (r : String)
    (hrun : tid ∉ s.running_tasks) (ht : lookupA s.tasks tid = some t)
    (hdep : depsNotReady s t = false)
    (hag : lookupA s.agents t.role = some ag)
    (hex : ag.execute t.description = ExecResult.ok r)
    (hnd : (keysA s.dependencies).Nodup) (x : String) :
    lookupA (processTask s tid).tasks x =
      if tid = x then some (markDone r (s.clock + 1) (markStarted s.clock t))
      else if flipCondB s tid x = true then
        (lookupA s.tasks x).map markPending
      else lookupA s.tasks x := by
  rw [processTask_ok_eq s tid t ag r hrun ht hdep hag hex]
  show lookupA (unblockDependentTasks (execDoneState s tid r) tid).tasks x = _
  have hL : keysA (execDoneState s tid r).dependencies = keysA s.dependencies :=
    rfl
  rw [unblockDependentTasks_eq_fold, hL]
  rw [unblockFold_tasks_lookup tid (keysA s.dependencies)
        (execDoneState s tid r) x hnd]
  by_cases hx : tid = x
  · subst hx
    rw [flipCondB_execDone_self s tid r t ht]
    simp [execDoneState, lookupA_updateA, ht]
  · rw [flipCondB_execDone_ne s tid r hx]
    have hlook : lookupA (execDoneState s tid r).tasks x = lookupA s.tasks x := by
      unfold execDoneState
      dsimp only
      rw [lookupA_updateA, if_neg hx]
    by_cases hf : flipCondB s tid x = true
    · have hmem : x ∈ keysA s.dependencies := flipCondB_mem_keys hf
      simp [hx, hf, hmem, hlook]
    · simp [hx, hf, hlook]

theorem processTask_ok_deps_lookup (s : Coordinator) (tid : String)
    (t : Task) (ag : Agent) (r : String)
    (hrun : tid ∉ s.running_tasks) (ht : lookupA s.tasks tid = some t)
    (hdep : depsNotReady s t = false)
    (hag : lookupA s.agents t.role = some ag)
    (hex : ag.execute t.description = ExecResult.ok r)
    (hnd : (keysA s.dependencies).Nodup) (x : String) :
    lookupA (processTask s tid).dependencies x =
      (lookupA s.dependencies x).map (fun deps => deps.erase tid) := by
  rw [processTask_ok_eq s tid t ag r hrun ht hdep hag hex]
  show lookupA
    (unblockDependentTasks (execDoneState s tid r) tid).dependencies x = _
  have hL : keysA (execDoneState s tid r).dependencies = keysA s.dependencies :=
    rfl
  rw [unblockDependentTasks_eq_fold, hL]
  rw [unblockFold_deps_lookup tid (keysA s.dependencies)
        (execDoneState s tid r) x hnd]
  have hdx : lookupA (execDoneState s tid r).dependencies x =
      lookupA s.dependencies x := rfl
  by_cases hx : x ∈ keysA s.dependencies
  · simp [hx, hdx]
  · have hnone : lookupA s.dependencies x = none := by
      cases hl : lookupA s.dependencies x with
      | none => rfl
      | some deps =>
        exact absurd ((lookupA_isSome_iff _ _).mp (by simp [hl])) hx
    simp [hx, hdx, hnone]

/-! ### Projections of process_task in the failing case -/

theorem execFailState_tasks_lookup (s : Coordinator) (tid m x : String) :
    lookupA (execFailState s tid m).tasks x =
      if tid = x then
        (lookupA s.tasks tid).map
          (fun u => markFailedWith m (markStarted s.clock u))
      else lookupA s.tasks x := by
  unfold execFailState
  dsimp only
  rw [lookupA_updateA]

/-! ### The scheduler-loop invariant -/

theorem lookupA_updateA_isSome {α : Type} (m : List (String × α))
    (k x : String) (f : α → α) :
    (lookupA (updateA m k f) x).isSome = (lookupA m x).isSome := by
  rw [lookupA_updateA]
  by_cases h : k = x
  · subst h
    cases lookupA m k <;> simp
  · rw [if_neg h]

theorem flipCondB_execDone_blocked {s : Coordinator} {tid r x : String}
    {t : Task} (ht : lookupA s.tasks tid = some t)
    (hf : flipCondB (execDoneState s tid r) tid x = true) :
    statusOf s x = some TaskStatus.blocked ∧ ¬ tid = x := by
  have hb := flipCondB_blocked hf
  have hx : ¬ tid = x := by
    intro h
    subst h
    have hcomp : statusOf (execDoneState s tid r) tid =
        some TaskStatus.completed := by
      unfold statusOf execDoneState
      dsimp only
      rw [lookupA_updateA, if_pos rfl, ht]
      rfl
    rw [hcomp] at hb
    cases hb
  refine ⟨?_, hx⟩
  have hkeep : statusOf (execDoneState s tid r) x = statusOf s x := by
    unfold statusOf execDoneState
    dsimp only
    rw [lookupA_updateA, if_neg hx]
  rw [← hkeep]
  exact hb

theorem processTask_ok_tasks_keys (s : Coordinator) (tid : String)
    (t : Task) (ag : Agent) (r : String)
    (hrun : tid ∉ s.running_tasks) (ht : lookupA s.tasks tid = some t)
    (hdep : depsNotReady s t = false)
    (hag : lookupA s.agents t.role = some ag)
    (hex : ag.execute t.description = ExecResult.ok r) :
    keysA (processTask s tid).tasks = keysA s.tasks := by
  rw [processTask_ok_eq s tid t ag r hrun ht hdep hag hex]
  show keysA (unblockDependentTasks (execDoneState s tid r) tid).tasks = _
  rw [unblockDependentTasks_eq_fold, unblockFold_tasks_keys]
  unfold execDoneState
  dsimp only
  rw [keysA_updateA]

theorem processTask_ok_deps_keys (s : Coordinator) (tid : String)
    (t : Task) (ag : Agent) (r : String)
    (hrun : tid ∉ s.running_tasks) (ht : lookupA s.tasks tid = some t)
    (hdep : depsNotReady s t = false)
    (hag : lookupA s.agents t.role = some ag)
    (hex : ag.execute t.description = ExecResult.ok r) :
    keysA (processTask s tid).dependencies = keysA s.dependencies := by
  rw [processTask_ok_eq s tid t ag r hrun ht hdep hag hex]
  show keysA
    (unblockDependentTasks (execDoneState s tid r) tid).dependencies = _
  rw [unblockDependentTasks_eq_fold, unblockFold_deps_keys]
  rfl

theorem processTask_ok_tasks_isSome (s : Coordinator) (tid : String)
    (t : Task) (ag : Agent) (r : String)
    (hrun : tid ∉ s.running_tasks) (ht : lookupA s.tasks tid = some t)
    (hdep : depsNotReady s t = false)
    (hag : lookupA s.agents t.role = some ag)
    (hex : ag.execute t.description = ExecResult.ok r)
    (hnd : (keysA s.dependencies).Nodup) (x : String) :
    (lookupA (processTask s tid).tasks x).isSome =
      (lookupA s.tasks x).isSome := by
  rw [processTask_ok_tasks_lookup s tid t ag r hrun ht hdep hag hex hnd x]
  by_cases hx : tid = x
  · subst hx
    simp [ht]
  · rw [if_neg hx]
    by_cases hf : flipCondB s tid x = true
    · rw [if_pos hf]
      cases lookupA s.tasks x <;> simp
    · rw [if_neg hf]

theorem inv_step_blocked (s : Coordinator) (tid : String)
    (rest : List String) (t : Task)
    (hq : s.task_queue = tid :: rest) (hInv : Inv s)
    (ht : lookupA s.tasks tid = some t)
    (htst : t.status = TaskStatus.pending)
    (hdep : depsNotReady s t = true) :
    Inv (processTask { s with task_queue := rest } tid) := by
  obtain ⟨h1, h2, h3, h4, h5, h6, h7, h8, h9⟩ := hInv
  rw [hq] at h2
  have hnotin : tid ∉ rest := (List.nodup_cons.mp h2).1
  have hrest : rest.Nodup := (List.nodup_cons.mp h2).2
  have hrun : tid ∉ ({ s with task_queue := rest } : Coordinator).running_tasks := by
    dsimp only
    rw [h1]
    simp
  have ht' : lookupA ({ s with task_queue := rest } : Coordinator).tasks tid =
      some t := ht
  have hdep' : depsNotReady { s with task_queue := rest } t = true := hdep
  rw [processTask_blocked_eq _ tid t hrun ht' hdep']
  unfold Inv
  dsimp only
  have hka : keysA (updateA s.tasks tid markBlocked) = keysA s.tasks :=
    keysA_updateA s.tasks tid markBlocked
  refine ⟨h1, hrest, ?_, ?_, ?_, ?_, ?_, h8, ?_⟩
  · -- queue members stay PENDING
    intro x hx
    have hxne : ¬ tid = x := fun hh => hnotin (hh ▸ hx)
    have hxq : x ∈ s.task_queue := by
      rw [hq]
      exact List.mem_cons_of_mem _ hx
    have := h3 x hxq
    unfold statusOf at this ⊢
    dsimp only
    rw [lookupA_updateA, if_neg hxne]
    exact this
  · -- roles stay registered
    intro p hp
    obtain ⟨q, hqm, hpe⟩ := List.mem_map.mp hp
    by_cases hqk : q.1 = tid
    · rw [← hpe]
      rw [if_pos hqk]
      show (lookupA s.agents (markBlocked q.2).role).isSome = true
      rw [markBlocked_role]
      exact h4 q hqm
    · rw [← hpe, if_neg hqk]
      exact h4 q hqm
  · -- log counts terminal records
    intro p hp
    have hnd' : (keysA (updateA s.tasks tid markBlocked)).Nodup := by
      rw [hka]
      exact h7
    have hl := lookupA_eq_some_of_mem hnd' hp
    rw [lookupA_updateA] at hl
    by_cases hpt : tid = p.1
    · rw [if_pos hpt] at hl
      rw [ht] at hl
      have hp2 : p.2 = markBlocked t := by
        simpa using hl.symm
      rw [hp2, ← hpt]
      have hcount := h5 (tid, t) (mem_of_lookupA_eq_some ht)
      simp only at hcount
      rw [htst] at hcount
      simp at hcount
      rw [hcount]
      simp [markBlocked]
    · rw [if_neg hpt] at hl
      exact h5 p (mem_of_lookupA_eq_some (by exact hl))
  · -- the log only mentions stored ids
    intro e he
    rw [lookupA_updateA_isSome]
    exact h6 e he
  · -- task keys distinct
    rw [hka]
    exact h7
  · -- dependency-index keys are stored ids
    intro k hk
    rw [lookupA_updateA_isSome]
    exact h9 k hk

theorem count_append_one (l : List String) (a x : String) :
    (l ++ [a]).count x = l.count x + (if a = x then 1 else 0) := by
  rw [List.count_append]
  by_cases h : a = x
  · subst h
    simp
  · simp [List.count_cons, h]

theorem inv_step_err (s : Coordinator) (tid : String) (rest : List String)
    (t : Task) (ag : Agent) (m : String)
    (hq : s.task_queue = tid :: rest) (hInv : Inv s)
    (ht : lookupA s.tasks tid = some t)
    (htst : t.status = TaskStatus.pending)
    (hdep : depsNotReady s t = false)
    (hag : lookupA s.agents t.role = some ag)
    (hex : ag.execute t.description = ExecResult.err m) :
    Inv (processTask { s with task_queue := rest } tid) := by
  obtain ⟨h1, h2, h3, h4, h5, h6, h7, h8, h9⟩ := hInv
  rw [hq] at h2
  have hnotin : tid ∉ rest := (List.nodup_cons.mp h2).1
  have hrest : rest.Nodup := (List.nodup_cons.mp h2).2
  have hrun : tid ∉ ({ s with task_queue := rest } : Coordinator).running_tasks := by
    dsimp only
    rw [h1]
    simp
  have ht' : lookupA ({ s with task_queue := rest } : Coordinator).tasks tid =
      some t := ht
  have hdep' : depsNotReady { s with task_queue := rest } t = false := hdep
  have hag' : lookupA ({ s with task_queue := rest } : Coordinator).agents
      t.role = some ag := hag
  rw [processTask_err_eq _ tid t ag m hrun ht' hdep' hag' hex]
  unfold Inv execFailState
  dsimp only
  have hka : keysA (updateA s.tasks tid
      (fun u => markFailedWith m (markStarted s.clock u))) = keysA s.tasks :=
    keysA_updateA s.tasks tid _
  refine ⟨?_, hrest, ?_, ?_, ?_, ?_, ?_, h8, ?_⟩
  · -- finally removed the id from the in-flight set again
    rw [h1]
    simp
  · -- queue members stay PENDING
    intro x hx
    have hxne : ¬ tid = x := fun hh => hnotin (hh ▸ hx)
    have hxq : x ∈ s.task_queue := by
      rw [hq]
      exact List.mem_cons_of_mem _ hx
    have := h3 x hxq
    unfold statusOf at this ⊢
    dsimp only
    rw [lookupA_updateA, if_neg hxne]
    exact this
  · -- roles stay registered
    intro p hp
    obtain ⟨q, hqm, hpe⟩ := List.mem_map.mp hp
    by_cases hqk : q.1 = tid
    · rw [← hpe, if_pos hqk]
      show (lookupA s.agents
        (markFailedWith m (markStarted s.clock q.2)).role).isSome = true
      rw [markFailedWith_role, markStarted_role]
      exact h4 q hqm
    · rw [← hpe, if_neg hqk]
      exact h4 q hqm
  · -- log counts terminal records
    intro p hp
    have hnd' : (keysA (updateA s.tasks tid
        (fun u => markFailedWith m (markStarted s.clock u)))).Nodup := by
      rw [hka]
      exact h7
    have hl := lookupA_eq_some_of_mem hnd' hp
    rw [lookupA_updateA] at hl
    rw [count_append_one]
    by_cases hpt : tid = p.1
    · rw [if_pos hpt] at hl
      rw [ht] at hl
      have hp2 : p.2 = markFailedWith m (markStarted s.clock t) := by
        simpa using hl.symm
      have hcount := h5 (tid, t) (mem_of_lookupA_eq_some ht)
      simp only at hcount
      rw [htst] at hcount
      simp at hcount
      rw [hp2, ← hpt, hcount]
      simp
    · rw [if_neg hpt] at hl
      have hbase := h5 p (mem_of_lookupA_eq_some (by exact hl))
      rw [hbase, if_neg hpt]
      simp
  · -- the log only mentions stored ids
    intro e he
    rw [lookupA_updateA_isSome]
    rcases List.mem_append.mp he with he | he
    · exact h6 e he
    · have : e = tid := by simpa using he
      rw [this, ht]
      rfl
  · -- task keys distinct
    rw [hka]
    exact h7
  · -- dependency-index keys are stored ids
    intro k hk
    rw [lookupA_updateA_isSome]
    exact h9 k hk

theorem inv_step_ok (s : Coordinator) (tid : String) (rest : List String)
    (t : Task) (ag : Agent) (r : String)
    (hq : s.task_queue = tid :: rest) (hInv : Inv s)
    (ht : lookupA s.tasks tid = some t)
    (htst : t.status = TaskStatus.pending)
    (hdep : depsNotReady s t = false)
    (hag : lookupA s.agents t.role = some ag)
    (hex : ag.execute t.description = ExecResult.ok r) :
    Inv (processTask { s with task_queue := rest } tid) := by
  obtain ⟨h1, h2, h3, h4, h5, h6, h7, h8, h9⟩ := hInv
  rw [hq] at h2
  have hnotin : tid ∉ rest := (List.nodup_cons.mp h2).1
  have hrest : rest.Nodup := (List.nodup_cons.mp h2).2
  set sq : Coordinator := { s with task_queue := rest } with hsqdef
  have hrun : tid ∉ sq.running_tasks := by
    show tid ∉ s.running_tasks
    rw [h1]
    simp
  have ht' : lookupA sq.tasks tid = some t := ht
  have hdep' : depsNotReady sq t = false := hdep
  have hag' : lookupA sq.agents t.role = some ag := hag
  have h8' : (keysA sq.dependencies).Nodup := h8
  have hqueue := processTask_ok_queue sq tid t ag r hrun ht' hdep' hag' hex h8'
  have htl := fun x =>
    processTask_ok_tasks_lookup sq tid t ag r hrun ht' hdep' hag' hex h8' x
  have hlog := processTask_ok_log sq tid t ag r hrun ht' hdep' hag' hex
  have hrunning := processTask_ok_running sq tid t ag r hrun ht' hdep' hag' hex
  have hagents := processTask_ok_agents sq tid t ag r hrun ht' hdep' hag' hex
  have htkeys := processTask_ok_tasks_keys sq tid t ag r hrun ht' hdep' hag' hex
  have hdkeys := processTask_ok_deps_keys sq tid t ag r hrun ht' hdep' hag' hex
  have htsome := fun x =>
    processTask_ok_tasks_isSome sq tid t ag r hrun ht' hdep' hag' hex h8' x
  -- a task appearing in the freshly-enqueued suffix was BLOCKED before
  have hflip : ∀ x, flipCondB (execDoneState sq tid r) tid x = true →
      statusOf s x = some TaskStatus.blocked ∧ ¬ tid = x := by
    intro x hf
    exact flipCondB_execDone_blocked ht' hf
  unfold Inv
  refine ⟨?_, ?_, ?_, ?_, ?_, ?_, ?_, ?_, ?_⟩
  · -- nothing in flight again
    rw [hrunning]
    exact h1
  · -- the queue has pairwise distinct ids
    rw [hqueue]
    show (rest ++ _).Nodup
    refine List.Nodup.append hrest (List.Nodup.filter _ h8') ?_
    intro a ha hafilter
    have hf := (List.mem_filter.mp hafilter).2
    have hbl := (hflip a hf).1
    have hap : statusOf s a = some TaskStatus.pending :=
      h3 a (by rw [hq]; exact List.mem_cons_of_mem _ ha)
    rw [hap] at hbl
    cases hbl
  · -- queue members are PENDING afterwards
    intro x hx
    rw [hqueue] at hx
    have hx' : x ∈ rest ++ (keysA sq.dependencies).filter
        (fun y => flipCondB (execDoneState sq tid r) tid y) := hx
    unfold statusOf
    rcases List.mem_append.mp hx' with hxr | hxf
    · have hxne : ¬ tid = x := fun hh => hnotin (hh ▸ hxr)
      rw [htl x, if_neg hxne]
      have hxp : statusOf s x = some TaskStatus.pending :=
        h3 x (by rw [hq]; exact List.mem_cons_of_mem _ hxr)
      by_cases hf : flipCondB sq tid x = true
      · have hbl := flipCondB_blocked hf
        have : statusOf s x = some TaskStatus.blocked := hbl
        rw [hxp] at this
        cases this
      · rw [if_neg hf]
        exact hxp
    · have hf := (List.mem_filter.mp hxf).2
      obtain ⟨hbl, hxne⟩ := hflip x hf
      rw [htl x, if_neg hxne]
      have hfsq : flipCondB sq tid x = true := by
        rw [← flipCondB_execDone_ne sq tid r hxne]
        exact hf
      rw [if_pos hfsq]
      unfold statusOf at hbl
      cases hlx : lookupA s.tasks x with
      | none => rw [hlx] at hbl; cases hbl
      | some u => simp
  · -- roles stay registered
    intro p hp
    have hnd' : (keysA (processTask sq tid).tasks).Nodup := by
      rw [htkeys]
      exact h7
    have hl := lookupA_eq_some_of_mem hnd' hp
    rw [htl p.1] at hl
    rw [hagents]
    by_cases hpt : tid = p.1
    · rw [if_pos hpt] at hl
      have hp2 : p.2 = markDone r (sq.clock + 1) (markStarted sq.clock t) := by
        simpa using hl.symm
      rw [hp2, markDone_role, markStarted_role]
      exact h4 (tid, t) (mem_of_lookupA_eq_some ht)
    · rw [if_neg hpt] at hl
      by_cases hf : flipCondB sq tid p.1 = true
      · rw [if_pos hf] at hl
        obtain ⟨u, hu, hup⟩ := Option.map_eq_some'.mp hl
        rw [← hup, markPending_role]
        exact h4 (p.1, u) (mem_of_lookupA_eq_some hu)
      · rw [if_neg hf] at hl
        exact h4 p (mem_of_lookupA_eq_some (by exact hl))
  · -- log counts terminal records
    intro p hp
    have hnd' : (keysA (processTask sq tid).tasks).Nodup := by
      rw [htkeys]
      exact h7
    have hl := lookupA_eq_some_of_mem hnd' hp
    rw [htl p.1] at hl
    rw [hlog]
    show (s.log ++ [tid]).count p.1 = _
    rw [count_append_one]
    by_cases hpt : tid = p.1
    · rw [if_pos hpt] at hl
      have hp2 : p.2 = markDone r (sq.clock + 1) (markStarted sq.clock t) := by
        simpa using hl.symm
      have hcount := h5 (tid, t) (mem_of_lookupA_eq_some ht)
      simp only at hcount
      rw [htst] at hcount
      simp at hcount
      rw [hp2, ← hpt, hcount]
      simp
    · rw [if_neg hpt] at hl
      by_cases hf : flipCondB sq tid p.1 = true
      · rw [if_pos hf] at hl
        obtain ⟨u, hu, hup⟩ := Option.map_eq_some'.mp hl
        have hbl := flipCondB_blocked hf
        have hust : u.status = TaskStatus.blocked := by
          unfold statusOf at hbl
          rw [show lookupA sq.tasks p.1 = some u from hu] at hbl
          simpa using hbl
        have hcount := h5 (p.1, u) (mem_of_lookupA_eq_some hu)
        simp only at hcount
        rw [hust] at hcount
        simp at hcount
        rw [← hup, hcount, if_neg hpt]
        simp [markPending]
      · rw [if_neg hf] at hl
        have hbase := h5 p (mem_of_lookupA_eq_some (by exact hl))
        rw [hbase, if_neg hpt]
        simp
  · -- the log only mentions stored ids
    intro e he
    rw [hlog] at he
    have he' : e ∈ s.log ++ [tid] := he
    rw [htsome e]
    rcases List.mem_append.mp he' with he'' | he''
    · exact h6 e he''
    · have : e = tid := by simpa using he''
      rw [this, ht']
      rfl
  · -- task keys distinct
    rw [htkeys]
    exact h7
  · -- dependency-index keys distinct
    rw [hdkeys]
    exact h8
  · -- dependency-index keys are stored ids
    intro k hk
    rw [hdkeys] at hk
    rw [htsome k]
    exact h9 k hk

theorem inv_stepOnce (s : Coordinator) (h : Inv s) : Inv (stepOnce s) := by
  cases hq : s.task_queue with
  | nil =>
    have heq : stepOnce s = s := by
      unfold stepOnce
      rw [hq]
    rw [heq]
    exact h
  | cons tid rest =>
    have heq : stepOnce s = processTask { s with task_queue := rest } tid := by
      unfold stepOnce
      rw [hq]
    rw [heq]
    have hmem : tid ∈ s.task_queue := by
      rw [hq]
      exact List.mem_cons_self _ _
    have hst := h.2.2.1 tid hmem
    obtain ⟨t, ht, htst⟩ : ∃ t, lookupA s.tasks tid = some t ∧
        t.status = TaskStatus.pending := by
      unfold statusOf at hst
      cases hl : lookupA s.tasks tid with
      | none => rw [hl] at hst; cases hst
      | some u =>
        rw [hl] at hst
        exact ⟨u, rfl, by simpa using hst⟩
    by_cases hdep : depsNotReady s t = true
    · exact inv_step_blocked s tid rest t hq h ht htst hdep
    · have hdepf : depsNotReady s t = false := by
        cases hbool : depsNotReady s t
        · rfl
        · exact absurd hbool hdep
      have hsome := h.2.2.2.1 (tid, t) (mem_of_lookupA_eq_some ht)
      obtain ⟨ag, hag⟩ : ∃ ag, lookupA s.agents t.role = some ag := by
        cases hl : lookupA s.agents t.role with
        | none => rw [hl] at hsome; cases hsome
        | some a => exact ⟨a, rfl⟩
      cases hex : ag.execute t.description with
      | ok r => exact inv_step_ok s tid rest t ag r hq h ht htst hdepf hag hex
      | err m => exact inv_step_err s tid rest t ag m hq h ht htst hdepf hag hex

theorem inv_loopIter (k : Nat) (s : Coordinator) (h : Inv s) :
    Inv (loopIter k s) := by
  induction k generalizing s with
  | zero => exact h
  | succ n ih =>
    show Inv (if exitCond s then s else loopIter n (stepOnce s))
    by_cases he : exitCond s
    · rw [if_pos he]
      exact h
    · rw [if_neg he]
      exact ih (stepOnce s) (inv_stepOnce s h)

theorem loopIter_exit (k : Nat) (s : Coordinator) (h : exitCond s) :
    loopIter k s = s := by
  cases k with
  | zero => rfl
  | succ n =>
    show (if exitCond s then s else loopIter n (stepOnce s)) = s
    rw [if_pos h]

theorem loopIter_add (a b : Nat) (s : Coordinator) :
    loopIter (a + b) s = loopIter b (loopIter a s) := by
  induction a generalizing s with
  | zero =>
    rw [Nat.zero_add]
    rfl
  | succ n ih =>
    have hn : n + 1 + b = (n + b) + 1 := by omega
    rw [hn]
    show (if exitCond s then s else loopIter (n + b) (stepOnce s)) = _
    by_cases he : exitCond s
    · rw [if_pos he]
      have h1 : loopIter (n + 1) s = s := loopIter_exit _ _ he
      rw [h1, loopIter_exit _ _ he]
    · rw [if_neg he, ih]
      have h1 : loopIter (n + 1) s = loopIter n (stepOnce s) := by
        show (if exitCond s then s else loopIter n (stepOnce s)) = _
        rw [if_neg he]
      rw [h1]

theorem stepOnce_terminal_preserved (s : Coordinator) (h : Inv s)
    (x : String)
    (hx : statusOf s x = some TaskStatus.completed ∨
      statusOf s x = some TaskStatus.failed) :
    statusOf (stepOnce s) x = statusOf s x := by
  cases hq : s.task_queue with
  | nil =>
    have heq : stepOnce s = s := by
      unfold stepOnce
      rw [hq]
    rw [heq]
  | cons tid rest =>
    have heq : stepOnce s = processTask { s with task_queue := rest } tid := by
      unfold stepOnce
      rw [hq]
    have hmem : tid ∈ s.task_queue := by
      rw [hq]
      exact List.mem_cons_self _ _
    have hst := h.2.2.1 tid hmem
    have hxne : ¬ tid = x := by
      intro hh
      subst hh
      rcases hx with hx | hx <;> rw [hst] at hx <;> cases hx
    obtain ⟨t, ht, htst⟩ : ∃ t, lookupA s.tasks tid = some t ∧
        t.status = TaskStatus.pending := by
      unfold statusOf at hst
      cases hl : lookupA s.tasks tid with
      | none => rw [hl] at hst; cases hst
      | some u =>
        rw [hl] at hst
        exact ⟨u, rfl, by simpa using hst⟩
    rw [heq]
    set sq : Coordinator := { s with task_queue := rest } with hsqdef
    have hrun : tid ∉ sq.running_tasks := by
      show tid ∉ s.running_tasks
      rw [h.1]
      simp
    have ht' : lookupA sq.tasks tid = some t := ht
    by_cases hdep : depsNotReady s t = true
    · rw [processTask_blocked_eq sq tid t hrun ht' hdep]
      unfold statusOf
      show (lookupA (updateA s.tasks tid markBlocked) x).map Task.status = _
      rw [lookupA_updateA, if_neg hxne]
    · have hdepf : depsNotReady sq t = false := by
        cases hbool : depsNotReady s t
        · exact hbool
        · exact absurd hbool hdep
      have hsome := h.2.2.2.1 (tid, t) (mem_of_lookupA_eq_some ht)
      obtain ⟨ag, hag⟩ : ∃ ag, lookupA s.agents t.role = some ag := by
        cases hl : lookupA s.agents t.role with
        | none => rw [hl] at hsome; cases hsome
        | some a => exact ⟨a, rfl⟩
      have hag' : lookupA sq.agents t.role = some ag := hag
      cases hex : ag.execute t.description with
      | ok r =>
        have h8' : (keysA sq.dependencies).Nodup := h.2.2.2.2.2.2.2.1
        unfold statusOf
        rw [processTask_ok_tasks_lookup sq tid t ag r hrun ht' hdepf hag'
              hex h8' x, if_neg hxne]
        by_cases hf : flipCondB sq tid x = true
        · have hbl := flipCondB_blocked hf
          have hbl' : statusOf s x = some TaskStatus.blocked := hbl
          rcases hx with hx | hx <;> rw [hx] at hbl' <;> cases hbl'
        · rw [if_neg hf]
      | err m =>
        rw [processTask_err_eq sq tid t ag m hrun ht' hdepf hag' hex]
        unfold statusOf
        rw [execFailState_tasks_lookup, if_neg hxne]

theorem loopIter_terminal_preserved (m : Nat) (s : Coordinator) (h : Inv s)
    (x : String)
    (hx : statusOf s x = some TaskStatus.completed ∨
      statusOf s x = some TaskStatus.failed) :
    statusOf (loopIter m s) x = statusOf s x := by
  induction m generalizing s with
  | zero => rfl
  | succ n ih =>
    show statusOf (if exitCond s then s else loopIter n (stepOnce s)) x = _
    by_cases he : exitCond s
    · rw [if_pos he]
    · rw [if_neg he]
      have hkeep := stepOnce_terminal_preserved s h x hx
      have := ih (stepOnce s) (inv_stepOnce s h) (by rw [hkeep]; exact hx)
      rw [this, hkeep]

/-! ### Dependents of failed tasks -/

@[simp] theorem markBlocked_dependencies (u : Task) :
    (markBlocked u).dependencies = u.dependencies := rfl

@[simp] theorem markStarted_dependencies (c : Nat) (u : Task) :
    (markStarted c u).dependencies = u.dependencies := rfl

@[simp] theorem markDone_dependencies (r : String) (c : Nat) (u : Task) :
    (markDone r c u).dependencies = u.dependencies := rfl

@[simp] theorem markFailedWith_dependencies (m : String) (u : Task) :
    (markFailedWith m u).dependencies = u.dependencies := rfl

theorem statusOf_some {s : Coordinator} {x : String} {st : TaskStatus}
    (h : statusOf s x = some st) :
    ∃ u, lookupA s.tasks x = some u ∧ u.status = st := by
  unfold statusOf at h
  cases hl : lookupA s.tasks x with
  | none => rw [hl] at h; cases h
  | some u =>
    rw [hl] at h
    exact ⟨u, rfl, by simpa using h⟩

theorem depsNotReady_of_failed_dep {s : Coordinator} {t ft : Task}
    {F : String} (hft : lookupA s.tasks F = some ft)
    (hfst : ft.status = TaskStatus.failed) (hmem : F ∈ t.dependencies) :
    depsNotReady s t = true := by
  unfold depsNotReady
  rw [List.any_eq_true]
  refine ⟨F, hmem, ?_⟩
  rw [hft]
  simp [hfst]

theorem flipCondB_false_of_other_dep {s : Coordinator}
    {D F tid : String} {deps : List String}
    (hdeps : lookupA s.dependencies D = some deps) (hF : F ∈ deps)
    (hne : F ≠ tid) : flipCondB s tid D = false := by
  unfold flipCondB
  rw [hdeps]
  have hFe : F ∈ deps.erase tid := (List.mem_erase_of_ne hne).mpr hF
  have hnil : ¬ (deps.erase tid = []) := by
    intro hnil
    rw [hnil] at hFe
    cases hFe
  simp [hnil]

theorem stepOnce_blockedOnFailed (s : Coordinator) (F D : String)
    (h : Inv s) (hb : BlockedOnFailed s F D) :
    BlockedOnFailed (stepOnce s) F D ∧
    (statusOf s D = some TaskStatus.blocked →
      statusOf (stepOnce s) D = some TaskStatus.blocked) := by
  obtain ⟨hF, ⟨tD, htD, hFdeps⟩, ⟨deps, hdeps, hFrem⟩, hDst⟩ := hb
  obtain ⟨ft, hft, hftst⟩ := statusOf_some hF
  cases hq : s.task_queue with
  | nil =>
    have heq : stepOnce s = s := by
      unfold stepOnce
      rw [hq]
    rw [heq]
    exact ⟨⟨hF, ⟨tD, htD, hFdeps⟩, ⟨deps, hdeps, hFrem⟩, hDst⟩, fun h' => h'⟩
  | cons tid rest =>
    have heq : stepOnce s = processTask { s with task_queue := rest } tid := by
      unfold stepOnce
      rw [hq]
    rw [heq]
    set sq : Coordinator := { s with task_queue := rest } with hsqdef
    have hmem : tid ∈ s.task_queue := by
      rw [hq]
      exact List.mem_cons_self _ _
    have hst := h.2.2.1 tid hmem
    obtain ⟨t, ht, htst⟩ := statusOf_some hst
    have hFt : ¬ tid = F := by
      intro hh
      subst hh
      rw [ht] at hft
      have : t = ft := by simpa using hft
      rw [this, hftst] at htst
      cases htst
    have hrun : tid ∉ sq.running_tasks := by
      show tid ∉ s.running_tasks
      rw [h.1]
      simp
    have ht' : lookupA sq.tasks tid = some t := ht
    by_cases hDtid : D = tid
    · -- the dequeued task is D itself: its failed dependency re-blocks it
      subst hDtid
      have htDt : tD = t := by
        rw [htD] at ht
        simpa using ht
      have hdepT : depsNotReady sq t = true :=
        depsNotReady_of_failed_dep hft hftst (htDt ▸ hFdeps)
      rw [processTask_blocked_eq sq D t hrun ht' hdepT]
      have hDF : ¬ D = F := fun hh => hFt hh
      constructor
      · refine ⟨?_, ⟨markBlocked t, ?_, ?_⟩, ⟨deps, hdeps, hFrem⟩, ?_⟩
        · unfold statusOf
          show (lookupA (updateA s.tasks D markBlocked) F).map Task.status = _
          rw [lookupA_updateA, if_neg hDF]
          exact hF
        · show lookupA (updateA s.tasks D markBlocked) D = _
          rw [lookupA_updateA, if_pos rfl, ht]
          rfl
        · rw [markBlocked_dependencies]
          exact htDt ▸ hFdeps
        · right
          unfold statusOf
          show (lookupA (updateA s.tasks D markBlocked) D).map Task.status = _
          rw [lookupA_updateA, if_pos rfl, ht]
          rfl
      · intro _
        unfold statusOf
        show (lookupA (updateA s.tasks D markBlocked) D).map Task.status = _
        rw [lookupA_updateA, if_pos rfl, ht]
        rfl
    · -- some other task is dequeued
      have hDtid' : ¬ tid = D := fun hh => hDtid hh.symm
      by_cases hdep : depsNotReady s t = true
      · rw [processTask_blocked_eq sq tid t hrun ht' hdep]
        have hkeep : ∀ y, ¬ tid = y →
            lookupA (updateA s.tasks tid markBlocked) y = lookupA s.tasks y := by
          intro y hy
          rw [lookupA_updateA, if_neg hy]
        constructor
        · refine ⟨?_, ⟨tD, ?_, hFdeps⟩, ⟨deps, hdeps, hFrem⟩, ?_⟩
          · unfold statusOf
            show (lookupA (updateA s.tasks tid markBlocked) F).map
              Task.status = _
            rw [hkeep F hFt]
            exact hF
          · show lookupA (updateA s.tasks tid markBlocked) D = _
            rw [hkeep D hDtid']
            exact htD
          · unfold statusOf
            show (lookupA (updateA s.tasks tid markBlocked) D).map
                Task.status = some TaskStatus.pending ∨
              (lookupA (updateA s.tasks tid markBlocked) D).map
                Task.status = some TaskStatus.blocked
            rw [hkeep D hDtid']
            exact hDst
        · intro h'
          unfold statusOf
          show (lookupA (updateA s.tasks tid markBlocked) D).map
            Task.status = _
          rw [hkeep D hDtid']
          exact h'
      · have hdepf : depsNotReady sq t = false := by
          cases hbool : depsNotReady s t
          · exact hbool
          · exact absurd hbool hdep
        have hsome := h.2.2.2.1 (tid, t) (mem_of_lookupA_eq_some ht)
        obtain ⟨ag, hag⟩ : ∃ ag, lookupA s.agents t.role = some ag := by
          cases hl : lookupA s.agents t.role with
          | none => rw [hl] at hsome; cases hsome
          | some a => exact ⟨a, rfl⟩
        have hag' : lookupA sq.agents t.role = some ag := hag
        cases hex : ag.execute t.description with
        | err m =>
          rw [processTask_err_eq sq tid t ag m hrun ht' hdepf hag' hex]
          have hkeep : ∀ y, ¬ tid = y →
              lookupA (execFailState sq tid m).tasks y = lookupA s.tasks y := by
            intro y hy
            rw [execFailState_tasks_lookup, if_neg hy]
          constructor
          · refine ⟨?_, ⟨tD, ?_, hFdeps⟩, ⟨deps, ?_, hFrem⟩, ?_⟩
            · unfold statusOf
              rw [hkeep F hFt]
              exact hF
            · rw [hkeep D hDtid']
              exact htD
            · exact hdeps
            · unfold statusOf
              rw [hkeep D hDtid']
              exact hDst
          · intro h'
            unfold statusOf
            rw [hkeep D hDtid']
            exact h'
        | ok r =>
          have h8' : (keysA sq.dependencies).Nodup := h.2.2.2.2.2.2.2.1
          have htl := fun y => processTask_ok_tasks_lookup sq tid t ag r
            hrun ht' hdepf hag' hex h8' y
          have hdl := fun y => processTask_ok_deps_lookup sq tid t ag r
            hrun ht' hdepf hag' hex h8' y
          have hFne : F ≠ tid := fun hh => hFt hh.symm
          have hflipF : flipCondB sq tid F = false := by
            cases hbool : flipCondB sq tid F
            · rfl
            · have hbl := flipCondB_blocked hbool
              have hbl' : statusOf s F = some TaskStatus.blocked := hbl
              rw [hF] at hbl'
              cases hbl'
          have hdeps' : lookupA sq.dependencies D = some deps := hdeps
          have hflipD : flipCondB sq tid D = false :=
            flipCondB_false_of_other_dep hdeps' hFrem hFne
          constructor
          · refine ⟨?_, ⟨tD, ?_, hFdeps⟩, ⟨deps.erase tid, ?_, ?_⟩, ?_⟩
            · unfold statusOf
              rw [htl F, if_neg hFt, hflipF]
              simp only [Bool.false_eq_true, if_false]
              exact hF
            · rw [htl D, if_neg hDtid', hflipD]
              simp only [Bool.false_eq_true, if_false]
              exact htD
            · rw [hdl D, hdeps']
              rfl
            · exact (List.mem_erase_of_ne hFne).mpr hFrem
            · unfold statusOf
              rw [htl D, if_neg hDtid', hflipD]
              simp only [Bool.false_eq_true, if_false]
              exact hDst
          · intro h'
            unfold statusOf
            rw [htl D, if_neg hDtid', hflipD]
            simp only [Bool.false_eq_true, if_false]
            exact h'

theorem loopIter_blockedOnFailed (k : Nat) (s : Coordinator) (F D : String)
    (h : Inv s) (hb : BlockedOnFailed s F D) :
    BlockedOnFailed (loopIter k s) F D := by
  induction k generalizing s with
  | zero => exact hb
  | succ n ih =>
    show BlockedOnFailed (if exitCond s then s else loopIter n (stepOnce s)) F D
    by_cases he : exitCond s
    · rw [if_pos he]
      exact hb
    · rw [if_neg he]
      exact ih (stepOnce s) (inv_stepOnce s h)
        (stepOnce_blockedOnFailed s F D h hb).1

theorem loopIter_blocked_absorbing (m : Nat) (s : Coordinator)
    (F D : String) (h : Inv s) (hb : BlockedOnFailed s F D)
    (hD : statusOf s D = some TaskStatus.blocked) :
    statusOf (loopIter m s) D = some TaskStatus.blocked := by
  induction m generalizing s with
  | zero => exact hD
  | succ n ih =>
    show statusOf (if exitCond s then s else loopIter n (stepOnce s)) D = _
    by_cases he : exitCond s
    · rw [if_pos he]
      exact hD
    · rw [if_neg he]
      exact ih (stepOnce s) (inv_stepOnce s h)
        (stepOnce_blockedOnFailed s F D h hb).1
        ((stepOnce_blockedOnFailed s F D h hb).2 hD)

theorem inv_count_le_one (s : Coordinator) (h : Inv s) (x : String) :
    execCount s x ≤ 1 := by
  unfold execCount
  cases hl : lookupA s.tasks x with
  | none =>
    have hnm : x ∉ s.log := by
      intro hm
      have := h.2.2.2.2.2.1 x hm
      rw [hl] at this
      cases this
    rw [List.count_eq_zero.mpr hnm]
    exact Nat.zero_le 1
  | some u =>
    have := h.2.2.2.2.1 (x, u) (mem_of_lookupA_eq_some hl)
    simp only at this
    rw [this]
    by_cases hst : u.status = TaskStatus.completed ∨
        u.status = TaskStatus.failed
    · rw [if_pos hst]
    · rw [if_neg hst]
      exact Nat.zero_le 1

theorem inv_count_terminal (s : Coordinator) (h : Inv s) (x : String)
    (hx : statusOf s x = some TaskStatus.completed ∨
      statusOf s x = some TaskStatus.failed) :
    execCount s x = 1 := by
  unfold execCount
  have hsome : ∃ u, lookupA s.tasks x = some u ∧
      (u.status = TaskStatus.completed ∨ u.status = TaskStatus.failed) := by
    rcases hx with hx | hx
    · obtain ⟨u, hu, hus⟩ := statusOf_some hx
      exact ⟨u, hu, Or.inl hus⟩
    · obtain ⟨u, hu, hus⟩ := statusOf_some hx
      exact ⟨u, hu, Or.inr hus⟩
  obtain ⟨u, hu, hus⟩ := hsome
  have := h.2.2.2.2.1 (x, u) (mem_of_lookupA_eq_some hu)
  simp only at this
  rw [this, if_pos hus]

theorem inv_count_nonterminal (s : Coordinator) (h : Inv s) (x : String)
    (hx : statusOf s x = some TaskStatus.pending ∨
      statusOf s x = some TaskStatus.blocked) :
    execCount s x = 0 := by
  unfold execCount
  have hsome : ∃ u, lookupA s.tasks x = some u ∧
      (u.status = TaskStatus.pending ∨ u.status = TaskStatus.blocked) := by
    rcases hx with hx | hx
    · obtain ⟨u, hu, hus⟩ := statusOf_some hx
      exact ⟨u, hu, Or.inl hus⟩
    · obtain ⟨u, hu, hus⟩ := statusOf_some hx
      exact ⟨u, hu, Or.inr hus⟩
  obtain ⟨u, hu, hus⟩ := hsome
  have hnot : ¬ (u.status = TaskStatus.completed ∨
      u.status = TaskStatus.failed) := by
    rcases hus with hus | hus <;> rw [hus] <;> simp
  have := h.2.2.2.2.1 (x, u) (mem_of_lookupA_eq_some hu)
  simp only at this
  rw [this, if_neg hnot]

theorem lookupA_map_value {α β : Type} (m : List (String × α))
    (g : α → β) (k : String) :
    lookupA (m.map (fun p => (p.1, g p.2))) k = (lookupA m k).map g := by
  induction m with
  | nil => simp [lookupA]
  | cons p rest ih =>
    obtain ⟨k₀, v₀⟩ := p
    by_cases h : k₀ = k
    · simp [lookupA, h]
    · simp [lookupA, h, ih]

theorem runWorkflowAux_stuck (s : Coordinator) (hex : ¬ exitCond s)
    (hstep : stepOnce s = s) : ∀ n, runWorkflowAux n s = none := by
  intro n
  induction n with
  | zero => rfl
  | succ m ih =>
    show (if exitCond s then some s else runWorkflowAux m (stepOnce s)) = none
    rw [if_neg hex, hstep]
    exact ih

/-! ### Claim theorems -/

/-- C1 counterexample: in the spec scenario of a task `D` depending on a
never-submitted id `"ghost"`, `run_workflow` does NOT terminate: the
loop's break condition requires that no task is `BLOCKED`, so with `D`
permanently `BLOCKED` the loop times out on the empty queue and retries
forever. -/
theorem run_workflow_ghost_never_terminates :
    ¬ runWorkflowTerminates sGhost := by
  unfold runWorkflowTerminates
  rintro ⟨n, s', hns⟩
  rw [runWorkflowAux_stuck sGhost (by decide) rfl n] at hns
  cases hns

/-- C1 amended: whenever `run_workflow` terminates, the final state has
an empty Ready Queue, nothing in flight, and no task in `PENDING` or
`BLOCKED`; a run that leaves a task permanently `BLOCKED` therefore
never exits the loop. -/
theorem run_workflow_exits_only_when_idle :
    ∀ (n : Nat) (s s' : Coordinator), runWorkflowAux n s = some s' →
      s'.task_queue = [] ∧ s'.running_tasks = [] ∧ pendingTasks s' = [] := by
  intro n
  induction n with
  | zero =>
    intro s s' h
    cases h
  | succ m ih =>
    intro s s' h
    have hun : runWorkflowAux (m + 1) s =
        if exitCond s then some s else runWorkflowAux m (stepOnce s) := rfl
    rw [hun] at h
    by_cases he : exitCond s
    · rw [if_pos he] at h
      have hss : s = s' := Option.some.inj h
      rw [← hss]
      exact he
    · rw [if_neg he] at h
      exact ih (stepOnce s) s' h

/-- Witness for the amended C1 theorem on a concrete terminating run. -/
theorem run_workflow_exits_only_when_idle_witness :
    sSimpleFinal.task_queue = [] ∧ sSimpleFinal.running_tasks = [] ∧
      pendingTasks sSimpleFinal = [] :=
  run_workflow_exits_only_when_idle 2 sSimple sSimpleFinal rfl

/-- C2: evaluating `add_task` at the failing input.  After submitting
`task_001` (no dependencies, still `PENDING`) and then `task_002` with
`dependencies=["task_001"]`, the code leaves `task_002` `PENDING` and
enqueues it immediately, because `add_task` only tests that each
dependency id is present in `self.tasks`, not that it is `COMPLETED`.
The spec (and the repository's own tests) require `BLOCKED` here. -/
theorem add_task_pending_dependency_not_blocked :
    statusOf sC2 "task_001" = some TaskStatus.pending ∧
    statusOf sC2 "task_002" = some TaskStatus.pending ∧
    sC2.task_queue = ["task_001", "task_002"] := by
  decide

/-- C3 counterexample: `A` completes, then `D` is submitted with
`dependencies=["A","B"]` (`B` not yet submitted), then `B` is submitted
and completes.  Both listed dependencies of `D` are `COMPLETED`, yet `D`
is left `BLOCKED` with remaining set `{A}` and the scheduler makes no
further progress, because the remaining set was seeded with the full
dependency list including the already-completed `A`. -/
theorem completed_dependencies_task_stays_blocked :
    (lookupA sC3.tasks "D").map Task.dependencies = some ["A", "B"] ∧
    statusOf sC3 "A" = some TaskStatus.completed ∧
    statusOf sC3 "B" = some TaskStatus.completed ∧
    statusOf sC3 "D" = some TaskStatus.blocked ∧
    lookupA sC3.dependencies "D" = some ["A"] ∧
    stepOnce sC3 = sC3 := by
  refine ⟨by decide, by decide, by decide, by decide, by decide, rfl⟩

/-- C3 amended: `unblock_dependent_tasks T` removes `T` from the
remaining dependency set of every indexed task, flips a task whose
remaining set becomes empty from `BLOCKED` to `PENDING` and enqueues it,
and leaves every non-flipped task's status unchanged.  (The remaining
set is seeded at submission with the full listed dependency list, so a
dependency that completed before submission is never removed.) -/
theorem unblock_dependent_tasks_spec (s : Coordinator) (cid tid : String)
    (deps : List String) (hnd : (keysA s.dependencies).Nodup)
    (hd : lookupA s.dependencies tid = some deps) :
    lookupA (unblockDependentTasks s cid).dependencies tid =
      some (deps.erase cid) ∧
    (cid ∈ deps → deps.erase cid = [] →
      statusOf s tid = some TaskStatus.blocked →
      statusOf (unblockDependentTasks s cid) tid =
        some TaskStatus.pending ∧
      tid ∈ (unblockDependentTasks s cid).task_queue) ∧
    (flipCondB s cid tid = false →
      statusOf (unblockDependentTasks s cid) tid = statusOf s tid) := by
  have hmem : tid ∈ keysA s.dependencies :=
    (lookupA_isSome_iff _ _).mp (by simp [hd])
  rw [unblockDependentTasks_eq_fold]
  refine ⟨?_, ?_, ?_⟩
  · rw [unblockFold_deps_lookup cid _ s tid hnd, if_pos hmem, hd]
    rfl
  · intro hm1 hm2 hm3
    have hflip : flipCondB s cid tid = true := by
      unfold flipCondB
      rw [hd]
      simp [hm1, hm2, hm3]
    constructor
    · rw [unblockFold_statusOf cid _ s tid hnd, if_pos ⟨hmem, hflip⟩, hm3]
      rfl
    · rw [unblockFold_queue cid _ s hnd]
      refine List.mem_append.mpr (Or.inr ?_)
      exact List.mem_filter.mpr ⟨hmem, hflip⟩
  · intro hflip
    rw [unblockFold_statusOf cid _ s tid hnd]
    rw [if_neg ?_]
    intro hc
    rw [hflip] at hc
    exact absurd hc.2 (by simp)

/-- Witness for the amended C3 theorem at a concrete state. -/
theorem unblock_dependent_tasks_spec_witness :
    lookupA (unblockDependentTasks sC7 "F").dependencies "D" = some [] ∧
    statusOf (unblockDependentTasks sC7 "F") "D" =
      some TaskStatus.pending := by
  have h := unblock_dependent_tasks_spec sC7 "F" "D" ["F"]
    (by decide) (by decide)
  refine ⟨?_, (h.2.1 (by decide) (by decide) (by decide)).1⟩
  simpa using h.1

/-- C4 counterexample: re-submitting the id `"X"` does not fail; the
second call succeeds and the stored record is silently replaced. -/
theorem add_task_duplicate_id_overwrites_example :
    (addTask sC4 "r" "second" "X" none).isOk = true ∧
    (lookupA sC4.tasks "X").map Task.description = some "first" ∧
    (lookupA (addTaskState sC4 "r" "second" "X" none).tasks "X").map
      Task.description = some "second" := by
  decide

/-- C4 amended: `add_task` performs no duplicate-id check.  Called with
an id that already exists (and a registered role), with any dependency
argument, it succeeds and overwrites the stored record with a fresh one
built from the new arguments, which is then enqueued or blocked exactly
as for a first submission: `PENDING` and enqueued when the dependency
list is empty or every listed id is present in `self.tasks`, `BLOCKED`
and not enqueued otherwise. -/
theorem add_task_existing_id_overwrites (s : Coordinator)
    (role desc task_id : String) (deps : Option (List String)) (old : Task)
    (hrole : (lookupA s.agents role).isSome = true)
    (hold : lookupA s.tasks task_id = some old) :
    (addTask s role desc task_id deps).isOk = true ∧
    (deps.getD [] = [] →
      lookupA (addTaskState s role desc task_id deps).tasks task_id =
        some { id := task_id, role := role, description := desc,
               dependencies := deps.getD [] } ∧
      (addTaskState s role desc task_id deps).task_queue =
        s.task_queue ++ [task_id]) ∧
    (deps.getD [] ≠ [] →
      ¬ (deps.getD []).all (fun d =>
          (lookupA (insertA s.tasks task_id
            { id := task_id, role := role, description := desc,
              dependencies := deps.getD [] }) d).isSome) = true →
      lookupA (addTaskState s role desc task_id deps).tasks task_id =
        some { id := task_id, role := role, description := desc,
               dependencies := deps.getD [],
               status := TaskStatus.blocked } ∧
      (addTaskState s role desc task_id deps).task_queue = s.task_queue) ∧
    (deps.getD [] ≠ [] →
      (deps.getD []).all (fun d =>
          (lookupA (insertA s.tasks task_id
            { id := task_id, role := role, description := desc,
              dependencies := deps.getD [] }) d).isSome) = true →
      lookupA (addTaskState s role desc task_id deps).tasks task_id =
        some { id := task_id, role := role, description := desc,
               dependencies := deps.getD [] } ∧
      (addTaskState s role desc task_id deps).task_queue =
        s.task_queue ++ [task_id]) := by
  have hnn : ¬ (lookupA s.agents role).isNone = true := by
    cases hl : lookupA s.agents role
    · rw [hl] at hrole
      cases hrole
    · simp
  refine ⟨?_, ?_, ?_, ?_⟩
  · unfold addTask
    rw [if_neg hnn]
    dsimp only
    split
    · split
      · rfl
      · rfl
    · rfl
  · intro hnil
    unfold addTaskState addTask
    rw [if_neg hnn]
    dsimp only
    rw [if_neg (by simp [hnil])]
    constructor
    · show lookupA (insertA s.tasks task_id _) task_id = _
      rw [lookupA_insertA, if_pos rfl]
    · rfl
  · intro hne hnall
    unfold addTaskState addTask
    rw [if_neg hnn]
    dsimp only
    rw [if_pos hne, if_pos hnall]
    constructor
    · show lookupA (insertA (insertA s.tasks task_id _) task_id _) task_id = _
      rw [lookupA_insertA, if_pos rfl]
    · rfl
  · intro hne hall
    unfold addTaskState addTask
    rw [if_neg hnn]
    dsimp only
    rw [if_pos hne, if_neg (not_not_intro hall)]
    constructor
    · show lookupA (insertA s.tasks task_id _) task_id = _
      rw [lookupA_insertA, if_pos rfl]
    · rfl

/-- Witness for the amended C4 theorem at two concrete duplicate calls:
a dependency-free resubmission of `"X"` (overwritten, `PENDING`,
enqueued) and a resubmission of `"X"` depending on the never-submitted
id `"ghost"` (overwritten, `BLOCKED`, not enqueued). -/
theorem add_task_existing_id_overwrites_witness :
    (addTask sC4 "r" "second" "X" none).isOk = true ∧
    lookupA (addTaskState sC4 "r" "second" "X" none).tasks "X" =
      some { id := "X", role := "r", description := "second",
             dependencies := [] } ∧
    (addTaskState sC4 "r" "second" "X" none).task_queue =
      sC4.task_queue ++ ["X"] ∧
    (addTask sC4 "r" "third" "X" (some ["ghost"])).isOk = true ∧
    lookupA (addTaskState sC4 "r" "third" "X" (some ["ghost"])).tasks "X" =
      some { id := "X", role := "r", description := "third",
             dependencies := ["ghost"], status := TaskStatus.blocked } ∧
    (addTaskState sC4 "r" "third" "X" (some ["ghost"])).task_queue =
      sC4.task_queue := by
  have h1 := add_task_existing_id_overwrites sC4 "r" "second" "X" none
    { id := "X", role := "r", description := "first", dependencies := [] }
    (by decide) (by decide)
  have h2 := add_task_existing_id_overwrites sC4 "r" "third" "X"
    (some ["ghost"])
    { id := "X", role := "r", description := "first", dependencies := [] }
    (by decide) (by decide)
  have hb := h2.2.2.1 (by decide) (by decide)
  exact ⟨h1.1, (h1.2.1 (by decide)).1, (h1.2.1 (by decide)).2,
    h2.1, hb.1, hb.2⟩

/-- C5 counterexample: registering a second executor for the already
bound role `"r"` raises nothing and silently replaces the binding. -/
theorem register_agent_duplicate_role_overwrites_example :
    (lookupA sC5.agents "r").map Agent.persona = some "p2" ∧
    ¬ (lookupA sC5.agents "r").map Agent.persona = some "p1" := by
  decide

/-- C5 amended: `register_agent` never fails; it binds the role to the
given executor, replacing any existing binding for that role, and
touches nothing else in the scheduler state. -/
theorem register_agent_overwrites_binding (s : Coordinator)
    (memory : Agent) :
    (registerAgent s memory).tasks = s.tasks ∧
    (registerAgent s memory).task_queue = s.task_queue ∧
    (registerAgent s memory).dependencies = s.dependencies ∧
    (registerAgent s memory).running_tasks = s.running_tasks ∧
    (registerAgent s memory).log = s.log ∧
    lookupA (registerAgent s memory).agents memory.role = some memory ∧
    (∀ q, ¬ q = memory.role →
      lookupA (registerAgent s memory).agents q = lookupA s.agents q) := by
  refine ⟨rfl, rfl, rfl, rfl, rfl, ?_, ?_⟩
  · show lookupA (insertA s.agents memory.role memory) memory.role = _
    rw [lookupA_insertA, if_pos rfl]
  · intro q hq
    show lookupA (insertA s.agents memory.role memory) q = _
    rw [lookupA_insertA, if_neg (fun hh => hq hh.symm)]

/-- Witness for the amended C5 theorem at a concrete re-registration. -/
theorem register_agent_overwrites_binding_witness :
    (lookupA sC5.agents "r").map Agent.persona = some "p2" := by
  have h := (register_agent_overwrites_binding
    (registerAgent Coordinator.initState agentOk) agentOk2).2.2.2.2.2.1
  have h' : lookupA sC5.agents "r" = some agentOk2 := h
  rw [h']
  rfl

/-- C6 counterexample: after the executor raises, the task is `FAILED`
with the message recorded, but `completed_at` is NOT stamped — the
except-branch sets only `status` and `error`. -/
theorem failed_task_no_completed_at_example :
    statusOf sC6 "C" = some TaskStatus.failed ∧
    (lookupA sC6.tasks "C").map Task.error = some (some "Test error") ∧
    (lookupA sC6.tasks "C").map Task.completed_at = some none := by
  decide

/-- C6 amended: when the executor raises for the dequeued task, the task
ends `FAILED` with the message in `error`, `started_at` stamped but
`completed_at` left untouched, the id is removed from the in-flight set,
no unblocking happens (dependency index, other tasks untouched), the
exception does not escape, and the loop continues with the remaining
queue. -/
theorem process_task_executor_error_spec (s : Coordinator) (tid : String)
    (rest : List String) (t : Task) (ag : Agent) (m : String)
    (hq : s.task_queue = tid :: rest)
    (h1 : s.running_tasks = [])
    (ht : lookupA s.tasks tid = some t)
    (hdep : depsNotReady s t = false)
    (hag : lookupA s.agents t.role = some ag)
    (hex : ag.execute t.description = ExecResult.err m) :
    statusOf (stepOnce s) tid = some TaskStatus.failed ∧
    (lookupA (stepOnce s).tasks tid).map Task.error = some (some m) ∧
    (lookupA (stepOnce s).tasks tid).map Task.completed_at =
      some t.completed_at ∧
    (lookupA (stepOnce s).tasks tid).map Task.started_at =
      some (some ⟨s.clock⟩) ∧
    (stepOnce s).running_tasks = [] ∧
    (stepOnce s).task_queue = rest ∧
    (stepOnce s).dependencies = s.dependencies ∧
    (stepOnce s).log = s.log ++ [tid] ∧
    (∀ y, ¬ tid = y →
      lookupA (stepOnce s).tasks y = lookupA s.tasks y) := by
  have heq : stepOnce s = processTask { s with task_queue := rest } tid := by
    unfold stepOnce
    rw [hq]
  set sq : Coordinator := { s with task_queue := rest } with hsqdef
  have hrun : tid ∉ sq.running_tasks := by
    show tid ∉ s.running_tasks
    rw [h1]
    simp
  have ht' : lookupA sq.tasks tid = some t := ht
  have hdep' : depsNotReady sq t = false := hdep
  have hag' : lookupA sq.agents t.role = some ag := hag
  rw [heq, processTask_err_eq sq tid t ag m hrun ht' hdep' hag' hex]
  have hrec : lookupA (execFailState sq tid m).tasks tid =
      some (markFailedWith m (markStarted sq.clock t)) := by
    rw [execFailState_tasks_lookup, if_pos rfl, ht']
    rfl
  refine ⟨?_, ?_, ?_, ?_, ?_, rfl, rfl, rfl, ?_⟩
  · unfold statusOf
    rw [hrec]
    rfl
  · rw [hrec]
    rfl
  · rw [hrec]
    rfl
  · rw [hrec]
    rfl
  · show (sq.running_tasks ++ [tid]).erase tid = []
    have hr : sq.running_tasks = [] := h1
    rw [hr]
    simp
  · intro y hy
    rw [execFailState_tasks_lookup, if_neg hy]

/-- Witness for the amended C6 theorem on the concrete failing run. -/
theorem process_task_executor_error_spec_witness :
    statusOf (stepOnce sC6pre) "C" = some TaskStatus.failed ∧
    (lookupA (stepOnce sC6pre).tasks "C").map Task.completed_at =
      some none ∧
    (stepOnce sC6pre).task_queue = [] ∧
    (stepOnce sC6pre).running_tasks = [] := by
  have h := process_task_executor_error_spec sC6pre "C" [] taskC agentErr
    "Test error" (by decide) (by decide) (by decide) (by decide) rfl rfl
  exact ⟨h.1, h.2.2.1, h.2.2.2.2.2.1, h.2.2.2.2.1⟩

/-- C7: failure never propagates across dependency edges.  From any
invariant state in which `F` is `FAILED` and `D` lists `F` (with `F`
still in `D`'s remaining set) while `D` has not run: at every later
iteration of the loop `F` stays `FAILED`, `D` stays `PENDING` or
`BLOCKED` — never `FAILED`, never executed — and once `D` is `BLOCKED`
it stays `BLOCKED` for the remainder of the run. -/
theorem failed_dependency_never_unblocks_dependent (s : Coordinator)
    (F D : String) (h : Inv s) (hb : BlockedOnFailed s F D) :
    (∀ k, statusOf (loopIter k s) F = some TaskStatus.failed ∧
      (statusOf (loopIter k s) D = some TaskStatus.pending ∨
        statusOf (loopIter k s) D = some TaskStatus.blocked) ∧
      ¬ statusOf (loopIter k s) D = some TaskStatus.failed ∧
      execCount (loopIter k s) D = 0) ∧
    (∀ k n, statusOf (loopIter k s) D = some TaskStatus.blocked →
      statusOf (loopIter (k + n) s) D = some TaskStatus.blocked) := by
  constructor
  · intro k
    have hbk := loopIter_blockedOnFailed k s F D h hb
    have hk := inv_loopIter k s h
    obtain ⟨hF, _, _, hDst⟩ := hbk
    refine ⟨hF, hDst, ?_, ?_⟩
    · intro hDf
      rcases hDst with hD | hD <;> rw [hD] at hDf <;> cases hDf
    · exact inv_count_nonterminal _ hk D hDst
  · intro k n hD
    rw [loopIter_add]
    exact loopIter_blocked_absorbing n (loopIter k s) F D
      (inv_loopIter k s h) (loopIter_blockedOnFailed k s F D h hb) hD

/-- Witness for C7 on the concrete run where `F` fails and `D` depends
on it. -/
theorem failed_dependency_never_unblocks_dependent_witness :
    execCount (loopIter 5 sC7mid) "D" = 0 ∧
    statusOf (loopIter (1 + 4) sC7mid) "D" = some TaskStatus.blocked := by
  have h := failed_dependency_never_unblocks_dependent sC7mid "F" "D"
    (by decide)
    ⟨by decide, ⟨taskD7, by decide, by decide⟩,
      ⟨["F"], by decide, by decide⟩, by decide⟩
  exact ⟨(h.1 5).2.2.2, h.2 1 4 (by decide)⟩

/-- C8: at-most-once execution.  From any invariant state, at every
point of the run each task id has been passed to `execute_task` at most
once, a task in a terminal state (`COMPLETED` or `FAILED`) has been
executed exactly once, and a terminal status never changes again — no
task re-enters `IN_PROGRESS` after finishing.  (The code runs the loop
sequentially: each dequeued task is processed to completion before the
next `get`.) -/
theorem execute_at_most_once (s : Coordinator) (h : Inv s) :
    ∀ k x, execCount (loopIter k s) x ≤ 1 ∧
      ((statusOf (loopIter k s) x = some TaskStatus.completed ∨
        statusOf (loopIter k s) x = some TaskStatus.failed) →
        execCount (loopIter k s) x = 1) ∧
      (∀ n, (statusOf (loopIter k s) x = some TaskStatus.completed ∨
          statusOf (loopIter k s) x = some TaskStatus.failed) →
        statusOf (loopIter (k + n) s) x = statusOf (loopIter k s) x) := by
  intro k x
  have hk := inv_loopIter k s h
  refine ⟨inv_count_le_one _ hk x, inv_count_terminal _ hk x, ?_⟩
  intro n hx
  rw [loopIter_add]
  exact loopIter_terminal_preserved n (loopIter k s) hk x hx

/-- Witness for C8 on the concrete one-task run. -/
theorem execute_at_most_once_witness :
    execCount (loopIter 1 sSimple) "A" = 1 ∧
    statusOf (loopIter (1 + 3) sSimple) "A" =
      statusOf (loopIter 1 sSimple) "A" := by
  have h := execute_at_most_once sSimple (by decide) 1 "A"
  exact ⟨h.2.1 (Or.inl (by decide)), h.2.2 3 (Or.inl (by decide))⟩

/-- C9: `get_workflow_status` is read-only — the coordinator state after
the call is the state before it — and its report carries, for every
stored task id, the status string, role, description, ISO-serialized
`created_at`/`started_at`/`completed_at` and the error, plus the list of
registered role names and the list of in-flight ids. -/
theorem get_workflow_status_spec (s : Coordinator) :
    (getWorkflowStatus s).2 = s ∧
    (getWorkflowStatus s).1.agents = keysA s.agents ∧
    (getWorkflowStatus s).1.running_tasks = s.running_tasks ∧
    (∀ tid t, lookupA s.tasks tid = some t →
      lookupA (getWorkflowStatus s).1.tasks tid = some
        { status := t.status.value,
          role := t.role,
          description := t.description,
          created_at := t.created_at.isoformat,
          started_at := t.started_at.map DateTime.isoformat,
          completed_at := t.completed_at.map DateTime.isoformat,
          error := t.error }) := by
  refine ⟨rfl, rfl, rfl, ?_⟩
  intro tid t ht
  show lookupA (s.tasks.map (fun p => (p.1, taskReport p.2))) tid = _
  rw [lookupA_map_value, ht]
  rfl

/-- Witness for C9 at a concrete state. -/
theorem get_workflow_status_spec_witness :
    lookupA (getWorkflowStatus sC2).1.tasks "task_002" = some
      { status := "pending", role := "r", description := "Task 2",
        created_at := "0", started_at := none, completed_at := none,
        error := none } := by
  have h := (get_workflow_status_spec sC2).2.2.2 "task_002"
    { id := "task_002", role := "r", description := "Task 2",
      dependencies := ["task_001"] } (by decide)
  exact h

/-- C10: every `Task` record created by `add_task` carries the same
`created_at`: the dataclass default `datetime.now()` is evaluated once
at class-definition time, and `add_task` never sets `created_at`, so two
tasks submitted at different times (different clock states) share it and
it does not record submission time. -/
theorem created_at_is_class_constant (s1 s2 : Coordinator)
    (role1 d1 id1 role2 d2 id2 : String)
    (deps1 deps2 : Option (List String))
    (s1' s2' : Coordinator) (t1 t2 : Task)
    (h1 : addTask s1 role1 d1 id1 deps1 = Except.ok (s1', t1))
    (h2 : addTask s2 role2 d2 id2 deps2 = Except.ok (s2', t2)) :
    t1.created_at = t2.created_at ∧
    t1.created_at = taskClassCreatedAt := by
  have hgen : ∀ (s : Coordinator) (role d i : String)
      (deps : Option (List String)) (s' : Coordinator) (t : Task),
      addTask s role d i deps = Except.ok (s', t) →
      t.created_at = taskClassCreatedAt := by
    intro s role d i deps s' t h
    unfold addTask at h
    split at h
    · cases h
    · dsimp only at h
      split at h
      · split at h
        · injection h with hpair
          have hsnd := congrArg Prod.snd hpair
          dsimp only at hsnd
          rw [← hsnd]
        · injection h with hpair
          have hsnd := congrArg Prod.snd hpair
          dsimp only at hsnd
          rw [← hsnd]
      · injection h with hpair
        have hsnd := congrArg Prod.snd hpair
        dsimp only at hsnd
        rw [← hsnd]
  have e1 := hgen s1 role1 d1 id1 deps1 s1' t1 h1
  have e2 := hgen s2 role2 d2 id2 deps2 s2' t2 h2
  exact ⟨e1.trans e2.symm, e1⟩

/-- Witness for C10: two tasks submitted at different clock states share
the class-level `created_at` constant. -/
theorem created_at_is_class_constant_witness :
    tW1.created_at = tW2.created_at ∧
    tW1.created_at = taskClassCreatedAt :=
  created_at_is_class_constant
    (registerAgent Coordinator.initState agentOk) sC6
    "r" "early" "A2" "r" "late" "B2" none none
    (addTaskState (registerAgent Coordinator.initState agentOk)
      "r" "early" "A2" none)
    (addTaskState sC6 "r" "late" "B2" none)
    tW1 tW2 rfl rfl

end Letta
